import Mathlib

/-!
Verification of the commitment/purchase-ledger core of the
`gardenzilla/commitment_microservice` repository (`src/commitment.rs`,
with the gRPC call sites in `src/main.rs`).

Shallow embedding conventions:
* `Uuid` values are modelled as `Nat`; the freshly generated v4 ids
  (`Uuid::new_v4()`) are passed in explicitly as a `freshId` argument.
* `DateTime<Utc>` values are modelled as `Nat` seconds since the Unix epoch
  (1970-01-01 00:00:00 UTC); the wall clock (`Utc::now()` / `Utc::today()`)
  is passed in explicitly as a `now` argument.  The civil (proleptic
  Gregorian) calendar conversions performed by the `chrono` crate
  (`Datelike::year`, `NaiveDate::from_ymd(y, 1, 1).and_hms(0, 0, 0)`) are
  modelled by `civilYearOfDays` and `daysOfJan1` below, using the standard
  days-from-civil / civil-from-days algorithms.
* Rust `u32` values are modelled as `Nat` together with explicit wrap-around
  `% 4294967296` (`u32add`, `u32sub`) at the two arithmetic sites
  (`balance += …`, `balance -= …`).
* `&mut self` methods returning `Result<&Self, String>` become pure
  functions returning `Except String <updated value>`; an `Err` leaves the
  Rust receiver unmodified, which the pure embedding reflects by simply not
  producing a new state.
-/

/-- Wrapping `u32` addition: `a + b` reduced modulo `2^32`. -/
def u32add (a b : Nat) : Nat := (a + b) % 4294967296

/-- Wrapping `u32` subtraction: `a - b` modulo `2^32` (two's-complement
wrap-around on underflow, as in a Rust release build). -/
def u32sub (a b : Nat) : Nat := (a + 4294967296 - b % 4294967296) % 4294967296

/-- The civil year containing day `z`, where `z` counts days since
1970-01-01 (UTC).  Models `chrono`'s `Datelike::year()` on `Utc::today()`
via the standard civil-from-days algorithm (restricted to `z ≥ 0`, i.e.
instants at or after the Unix epoch, which is all the service ever sees). -/
def civilYearOfDays (z : Nat) : Nat :=
  let z' := z + 719468
  let era := z' / 146097
  let doe := z' % 146097
  let yoe := (doe - doe / 1460 + doe / 36524 - doe / 146096) / 365
  let y := yoe + era * 400
  let doy := doe - (365 * yoe + yoe / 4 - yoe / 100)
  let mp := (5 * doy + 2) / 153
  let m := if mp < 10 then mp + 3 else mp - 9
  if m ≤ 2 then y + 1 else y

/-- Day count (days since 1970-01-01 UTC) of January 1 of civil year `y`,
for `y ≥ 1970`.  Models `NaiveDate::from_ymd(y, 1, 1)` via the standard
days-from-civil algorithm (month 1 belongs to the shifted year `y - 1`,
with day-of-shifted-year 306). -/
def daysOfJan1 (y : Nat) : Nat :=
  let y' := y - 1
  let era := y' / 400
  let yoe := y' % 400
  let doe := yoe * 365 + yoe / 4 - yoe / 100 + 306
  era * 146097 + doe - 719468

/-- Timestamp (seconds since the epoch) of 00:00:00 UTC on January 1 of
year `y`: models `NaiveDate::from_ymd(y, 1, 1).and_hms(0, 0, 0)` turned
into a `DateTime<Utc>`. -/
def jan1Ts (y : Nat) : Nat := 86400 * daysOfJan1 y

/-- The civil year of the day containing timestamp `now`: models
`Utc::today().year()`. -/
def tsYear (now : Nat) : Nat := civilYearOfDays (now / 86400)

/-- `PurchaseInfo` of `src/commitment.rs` (field `crated_at` keeps the
source's spelling). -/
structure PurchaseInfo where
  purchase_id : Nat
  total_net : Nat
  total_gross : Nat
  applied_discount : Nat
  removed : Bool
  crated_at : Nat
deriving Repr, DecidableEq

/-- `PurchaseInfo::new`: fresh entry with `removed = false`, timestamped at
call time (this is how `main.rs` builds every entry that reaches
`Customer::add_purchase`). -/
def PurchaseInfo.new (purchase_id total_net total_gross applied_discount now : Nat) :
    PurchaseInfo :=
  { purchase_id, total_net, total_gross, applied_discount,
    removed := false, crated_at := now }

/-- `PurchaseInfo::set_removed`. -/
def PurchaseInfo.set_removed (p : PurchaseInfo) : PurchaseInfo :=
  { p with removed := true }

/-- `CommitmentStatus` of `src/commitment.rs`. -/
inductive CommitmentStatus where
  | Valid : CommitmentStatus
  | Withdrawn (successor : Nat) : CommitmentStatus
deriving Repr, DecidableEq

/-- `Commitment` of `src/commitment.rs`. -/
structure Commitment where
  commitment_id : Nat
  target : Nat
  discount_percentage : Nat
  valid_till : Nat
  balance : Nat
  purchase_log : List PurchaseInfo
  status : CommitmentStatus
  created_at : Nat
  created_by : Nat
deriving Repr, DecidableEq

/-- `Commitment::new` (`CommitmentExt` impl): succeeds exactly when
`discount_percentage <= 6` (the `x if x <= 6` match arm), with
`valid_till` set to Jan 1, 00:00:00 UTC of the year after the creation
year; `freshId` stands for the generated `Uuid::new_v4()`. -/
def Commitment.new (now target discount_percentage created_by freshId : Nat) :
    Except String Commitment :=
  if discount_percentage ≤ 6 then
    Except.ok
      { commitment_id := freshId
        target
        discount_percentage
        valid_till := jan1Ts (tsYear now + 1)
        balance := 0
        purchase_log := []
        status := CommitmentStatus.Valid
        created_at := now
        created_by }
  else Except.error "A kedvezmény mértéke 0-6% között lehet!"

/-- `Commitment::is_active`: status `Valid` and `valid_till >= Utc::now()`. -/
def Commitment.is_active (c : Commitment) (now : Nat) : Bool :=
  match c.status with
  | CommitmentStatus.Valid => decide (now ≤ c.valid_till)
  | CommitmentStatus.Withdrawn _ => false

/-- `Commitment::add_purchase`: duplicate-id check over the whole ledger
(removed or not), then `balance += total_gross` (wrapping `u32`) and push. -/
def Commitment.add_purchase (c : Commitment) (purchase : PurchaseInfo) :
    Except String Commitment :=
  if c.purchase_log.any (fun p => p.purchase_id == purchase.purchase_id) then
    Except.error "A megadott vásárlás már szerepel a vásárlási előzmények között!"
  else
    Except.ok
      { c with
        balance := u32add c.balance purchase.total_gross
        purchase_log := c.purchase_log ++ [purchase] }

/-- Flag the first ledger entry with the given purchase id as removed
(the effect of `iter_mut().find(...)` followed by `set_removed()`). -/
def markFirstRemoved : List PurchaseInfo → Nat → List PurchaseInfo
  | [], _ => []
  | p :: rest, purchase_id =>
    if p.purchase_id == purchase_id then p.set_removed :: rest
    else p :: markFirstRemoved rest purchase_id

/-- The first ledger entry carrying the given purchase id:
`purchase_log.iter().find(|pi| pi.purchase_id == *purchase_id)`. -/
def findPurchase (l : List PurchaseInfo) (purchase_id : Nat) : Option PurchaseInfo :=
  l.find? (fun p => p.purchase_id == purchase_id)

/-- `Commitment::remove_purchase`: find the first ledger entry with the
given id (the `removed` flag is not consulted), flag it removed and do the
wrapping `balance -= total_gross`; not-found error otherwise. -/
def Commitment.remove_purchase (c : Commitment) (purchase_id : Nat) :
    Except String Commitment :=
  match findPurchase c.purchase_log purchase_id with
  | some p =>
    Except.ok
      { c with
        purchase_log := markFirstRemoved c.purchase_log purchase_id
        balance := u32sub c.balance p.total_gross }
  | none => Except.error "A megadott vásárlási azonosító nem szerepel a kommitmentben"

/-- `Commitment::withdraw`: build a replacement via `Commitment::new`
(fresh id, fresh `valid_till`, revalidated discount), set our own status to
`Withdrawn { successor }`, copy balance and the entire purchase log into
the replacement and stamp it with the call's `created_at`/`created_by`.
Returns the pair (updated self, new commitment); the Rust method mutates
`self` and returns the new commitment. -/
def Commitment.withdraw (c : Commitment)
    (now new_target new_discount_percentage created_by freshId : Nat) :
    Except String (Commitment × Commitment) :=
  match Commitment.new now new_target new_discount_percentage created_by freshId with
  | Except.ok nc =>
    Except.ok
      ({ c with status := CommitmentStatus.Withdrawn freshId },
       { nc with
          balance := c.balance
          purchase_log := c.purchase_log
          created_at := now
          created_by := created_by })
  | Except.error e => Except.error e

/-- `Customer` of `src/commitment.rs`. -/
structure Customer where
  customer_id : Nat
  commitments : List Commitment
  created_at : Nat
  created_by : Nat
deriving Repr, DecidableEq

/-- `Customer::new` (`CustomerExt` impl): creates the first commitment
(propagating its validation failure) as the sole list element. -/
def Customer.new (now customer_id target discount_percentage created_by freshId : Nat) :
    Except String Customer :=
  match Commitment.new now target discount_percentage created_by freshId with
  | Except.ok c =>
    Except.ok { customer_id, commitments := [c], created_at := now, created_by }
  | Except.error e => Except.error e

/-- `Customer::has_commitment`: membership test over the entire list. -/
def Customer.has_commitment (cust : Customer) (commitment_id : Nat) : Bool :=
  cust.commitments.any (fun c => c.commitment_id == commitment_id)

/-- `Customer::get_commitment`: first commitment with the given id (the
Rust for-loop returns the first match as `&mut`). -/
def Customer.get_commitment (cust : Customer) (commitment_id : Nat) : Option Commitment :=
  cust.commitments.find? (fun c => c.commitment_id == commitment_id)

/-- `Customer::get_active_commitment`: the positionally last commitment,
provided `is_active()` holds for it. -/
def Customer.get_active_commitment (cust : Customer) (now : Nat) : Option Commitment :=
  match cust.commitments.getLast? with
  | some last => if last.is_active now then some last else none
  | none => none

/-- Replace the first commitment carrying the given id (the effect of
mutating through the `&mut` reference that `get_commitment` /
`get_active_commitment` return). -/
def updateFirstCommitment : List Commitment → Nat → Commitment → List Commitment
  | [], _, _ => []
  | c :: rest, commitment_id, c2 =>
    if c.commitment_id == commitment_id then c2 :: rest
    else c :: updateFirstCommitment rest commitment_id c2

/-- `Customer::add_purchase`: not-found error when the commitment id is
unknown to the customer; conflict errors when there is no active
commitment or the active one's id differs; on the positional head it runs
the commitment-level `add_purchase` but discards its result
(`let _ = active_commitment.add_purchase(purchase);`) and returns `Ok`. -/
def Customer.add_purchase (cust : Customer) (now commitment_id : Nat)
    (purchase : PurchaseInfo) : Except String Customer :=
  if ¬ cust.has_commitment commitment_id then
    Except.error "A megadott commitment ID nem szerepel a vásárlónál!"
  else
    match cust.get_active_commitment now with
    | some active_commitment =>
      if active_commitment.commitment_id = commitment_id then
        match active_commitment.add_purchase purchase with
        | Except.ok c2 =>
          Except.ok
            { cust with
              commitments :=
                cust.commitments.set (cust.commitments.length - 1) c2 }
        | Except.error _ => Except.ok cust
      else Except.error "A megadott commitment helyett már van újabb."
    | none =>
      Except.error
        "A megadott vásárlónak nincs aktív commitmentje, így a vásárlás nem adható hozzá."

/-- Fuel-indexed unfolding of the recursive `Customer::remove_purchase`.
The Rust recursion follows `Withdrawn { successor }` links; on every state
the service can actually reach, those links move strictly forward in the
list, so `commitments.length` calls always suffice and the fuel-exhaustion
branch (which has no Rust counterpart — Rust would recurse forever on a
cyclic chain) is unreachable; `remove_purchase_go_no_fuel_error` below
proves this. -/
def Customer.remove_purchase_go : Nat → Customer → Nat → Nat → Except String Customer
  | 0, _, _, _ => Except.error "unreachable: withdrawal chain exceeded the commitment count"
  | Nat.succ fuel, cust, commitment_id, purchase_id =>
    match cust.get_commitment commitment_id with
    | none => Except.error "A megadott commitment ID nem található a vásárló alatt."
    | some c =>
      match c.status with
      | CommitmentStatus.Valid =>
        match c.remove_purchase purchase_id with
        | Except.ok c2 =>
          Except.ok
            { cust with
              commitments := updateFirstCommitment cust.commitments commitment_id c2 }
        | Except.error e => Except.error e
      | CommitmentStatus.Withdrawn successor =>
        let cust2 :=
          match c.remove_purchase purchase_id with
          | Except.ok c2 =>
            { cust with
              commitments := updateFirstCommitment cust.commitments commitment_id c2 }
          | Except.error _ => cust
        Customer.remove_purchase_go fuel cust2 successor purchase_id

/-- `Customer::remove_purchase`: look the commitment up by id; on a
`Valid` one perform the single removal, propagating its error; on a
`Withdrawn` one attempt the removal, discard its result and recurse into
the successor. -/
def Customer.remove_purchase (cust : Customer) (commitment_id purchase_id : Nat) :
    Except String Customer :=
  Customer.remove_purchase_go cust.commitments.length cust commitment_id purchase_id

/-- `Customer::add_commitment`: withdraw the active commitment (if any)
and append its successor, or simply append a fresh commitment. -/
def Customer.add_commitment (cust : Customer)
    (now new_target new_discount_percentage created_by freshId : Nat) :
    Except String Customer :=
  match cust.get_active_commitment now with
  | some active_commitment =>
    match active_commitment.withdraw now new_target new_discount_percentage
        created_by freshId with
    | Except.ok (a2, new_commitment) =>
      Except.ok
        { cust with
          commitments :=
            (cust.commitments.set (cust.commitments.length - 1) a2) ++ [new_commitment] }
    | Except.error e => Except.error e
  | none =>
    match Commitment.new now new_target new_discount_percentage created_by freshId with
    | Except.ok c =>
      Except.ok { cust with commitments := cust.commitments ++ [c] }
    | Except.error e => Except.error e

/-- The commitment ids of a customer, in list order. -/
def commitmentIds (cust : Customer) : List Nat :=
  cust.commitments.map Commitment.commitment_id

/-- Reachable customer states, paired with the clock value of the latest
operation.  Each constructor is one successful call of the public
`CustomerExt` interface as the gRPC layer in `main.rs` performs it: the
clock never goes backwards, generated ids are fresh, purchase entries are
built by `PurchaseInfo::new` (so `removed = false`), and `u32` inputs are
below `2^32`.  Failed calls do not change the Rust state, so they need no
constructor. -/
inductive Reaches : Customer → Nat → Prop where
  | init (now customer_id target discount_percentage created_by freshId : Nat)
      (cust : Customer) :
      Customer.new now customer_id target discount_percentage created_by freshId =
        Except.ok cust →
      Reaches cust now
  | addCommitment {cust : Customer} {t : Nat}
      (now new_target new_discount_percentage created_by freshId : Nat)
      {cust2 : Customer} :
      Reaches cust t → t ≤ now →
      freshId ∉ commitmentIds cust →
      Customer.add_commitment cust now new_target new_discount_percentage created_by
        freshId = Except.ok cust2 →
      Reaches cust2 now
  | addPurchase {cust : Customer} {t : Nat}
      (now commitment_id purchase_id total_net total_gross applied_discount : Nat)
      {cust2 : Customer} :
      Reaches cust t → t ≤ now →
      total_gross < 4294967296 →
      Customer.add_purchase cust now commitment_id
        (PurchaseInfo.new purchase_id total_net total_gross applied_discount now) =
        Except.ok cust2 →
      Reaches cust2 now
  | removePurchase {cust : Customer} {t : Nat}
      (now commitment_id purchase_id : Nat) {cust2 : Customer} :
      Reaches cust t → t ≤ now →
      Customer.remove_purchase cust commitment_id purchase_id = Except.ok cust2 →
      Reaches cust2 now

/-! Concrete execution trace (clock frozen at `0`, i.e. 1970-01-01):
create customer `77` with commitment `10` (discount 2 %), post purchase `7`
of gross `5`, then retract purchase `7` twice.  `jan1Ts 1971 = 31536000`. -/

/-- The trace's initial commitment, as `Commitment::new` builds it. -/
def traceCommit0 : Commitment :=
  { commitment_id := 10, target := 1000, discount_percentage := 2
    valid_till := 31536000, balance := 0, purchase_log := []
    status := CommitmentStatus.Valid, created_at := 0, created_by := 1 }

/-- Trace state 0: the freshly created customer. -/
def traceCust0 : Customer :=
  { customer_id := 77, commitments := [traceCommit0], created_at := 0, created_by := 1 }

/-- The purchase entry posted in the trace (gross amount 5). -/
def tracePurchase : PurchaseInfo := PurchaseInfo.new 7 100 5 2 0

/-- Trace state 1: after posting purchase `7`. -/
def traceCust1 : Customer :=
  { traceCust0 with
    commitments :=
      [{ traceCommit0 with balance := 5, purchase_log := [tracePurchase] }] }

/-- Trace state 2: after retracting purchase `7` once (balance back to 0,
entry soft-deleted). -/
def traceCust2 : Customer :=
  { traceCust0 with
    commitments :=
      [{ traceCommit0 with
          balance := 0
          purchase_log := [tracePurchase.set_removed] }] }

/-- Trace state 3: after retracting purchase `7` a second time — the
wrapping `u32` subtraction drives the balance to `2^32 - 5`. -/
def traceCust3 : Customer :=
  { traceCust0 with
    commitments :=
      [{ traceCommit0 with
          balance := 4294967291
          purchase_log := [tracePurchase.set_removed] }] }

deriving instance DecidableEq for Except

example : Customer.new 0 77 1000 2 1 10 = Except.ok traceCust0 := by decide
example : Customer.add_purchase traceCust0 0 10 tracePurchase = Except.ok traceCust1 := by
  decide
example : Customer.remove_purchase traceCust1 10 7 = Except.ok traceCust2 := by decide
example : Customer.remove_purchase traceCust2 10 7 = Except.ok traceCust3 := by decide

/-- Trace state 1 is reachable through the public interface. -/
theorem traceCust1_reachable : Reaches traceCust1 0 := by
  have h0 : Reaches traceCust0 0 := Reaches.init 0 77 1000 2 1 10 traceCust0 (by decide)
  exact Reaches.addPurchase 0 10 7 100 5 2 h0 (Nat.le_refl 0) (by decide) (by decide)

/-- Trace state 2 is reachable through the public interface. -/
theorem traceCust2_reachable : Reaches traceCust2 0 :=
  Reaches.removePurchase 0 10 7 traceCust1_reachable (Nat.le_refl 0) (by decide)

/-- The bad trace state is reachable through the public interface. -/
theorem traceCust3_reachable : Reaches traceCust3 0 :=
  Reaches.removePurchase 0 10 7 traceCust2_reachable (Nat.le_refl 0) (by decide)

/-! ### Projections used by the invariants -/

/-- Sum of the gross amounts of the non-removed ledger entries — the value
the spec says `balance` tracks. -/
def grossSum : List PurchaseInfo → Nat
  | [] => 0
  | p :: rest => (if p.removed then 0 else p.total_gross) + grossSum rest

/-- The `valid_till` fields of a customer's commitments, in list order. -/
def validTills (cust : Customer) : List Nat :=
  cust.commitments.map Commitment.valid_till

/-- The structural part of a commitment — id, status, validity deadline:
everything the lifecycle invariants depend on and that the ledger
operations never touch. -/
def cShape (c : Commitment) : Nat × CommitmentStatus × Nat :=
  (c.commitment_id, c.status, c.valid_till)

/-- The structural parts of a customer's commitments, in list order. -/
def shapes (cust : Customer) : List (Nat × CommitmentStatus × Nat) :=
  cust.commitments.map cShape

/-- Setting an index to the value it already holds is the identity. -/
theorem set_self_of_getElem? {α : Type} :
    ∀ (l : List α) (n : Nat) (y : α), l[n]? = some y → l.set n y = l
  | [], _, _ => by simp
  | a :: l, 0, y => by intro h; simp at h; simp [h]
  | a :: l, n + 1, y => by
    intro h
    simp only [List.getElem?_cons_succ] at h
    simp [List.set, set_self_of_getElem? l n y h]

/-! ### Elementary facts about the commitment-level operations -/

/-- What a successful `Commitment::new` returns. -/
theorem Commitment.new_ok {now target discount_percentage created_by freshId : Nat}
    {c : Commitment}
    (h : Commitment.new now target discount_percentage created_by freshId =
      Except.ok c) :
    discount_percentage ≤ 6 ∧
      c = { commitment_id := freshId, target, discount_percentage
            valid_till := jan1Ts (tsYear now + 1), balance := 0, purchase_log := []
            status := CommitmentStatus.Valid, created_at := now, created_by } := by
  unfold Commitment.new at h
  by_cases hd : discount_percentage ≤ 6 <;> simp [hd] at h
  exact ⟨hd, h.symm⟩

/-- A successful commitment-level `add_purchase` keeps the structural part
and appends the entry while incrementing the balance. -/
theorem Commitment.add_purchase_ok {c : Commitment} {p : PurchaseInfo} {c2 : Commitment}
    (h : c.add_purchase p = Except.ok c2) :
    cShape c2 = cShape c ∧
      c2.balance = u32add c.balance p.total_gross ∧
      c2.purchase_log = c.purchase_log ++ [p] ∧
      (c.purchase_log.any (fun q => q.purchase_id == p.purchase_id)) = false := by
  unfold Commitment.add_purchase at h
  by_cases hd : c.purchase_log.any (fun q => q.purchase_id == p.purchase_id) <;>
    simp [hd] at h
  subst h
  exact ⟨rfl, rfl, rfl, by simpa using hd⟩

/-- A successful commitment-level `remove_purchase` keeps the structural
part, flags the first matching entry and decrements the balance by the
found entry's gross amount. -/
theorem Commitment.remove_purchase_ok {c : Commitment} {pid : Nat} {c2 : Commitment}
    (h : c.remove_purchase pid = Except.ok c2) :
    ∃ q, findPurchase c.purchase_log pid = some q ∧
      cShape c2 = cShape c ∧
      c2.purchase_log = markFirstRemoved c.purchase_log pid ∧
      c2.balance = u32sub c.balance q.total_gross := by
  unfold Commitment.remove_purchase at h
  cases hf : findPurchase c.purchase_log pid with
  | none => rw [hf] at h; cases h
  | some q =>
    rw [hf] at h
    simp only [Except.ok.injEq] at h
    subst h
    exact ⟨q, rfl, rfl, rfl, rfl⟩

/-- `updateFirstCommitment` leaves the structural projection unchanged
whenever the replacement agrees structurally with the first match. -/
theorem updateFirst_map_cShape :
    ∀ (l : List Commitment) (cid : Nat) (c2 : Commitment),
      (∀ c, l.find? (fun c => c.commitment_id == cid) = some c → cShape c2 = cShape c) →
      (updateFirstCommitment l cid c2).map cShape = l.map cShape := by
  intro l
  induction l with
  | nil => intro cid c2 _; rfl
  | cons c rest ih =>
    intro cid c2 hm
    by_cases hc : c.commitment_id == cid
    · have hsh : cShape c2 = cShape c := hm c (by simp [List.find?, hc])
      simp [updateFirstCommitment, hc, hsh]
    · have : rest.find? (fun c => c.commitment_id == cid) =
        (c :: rest).find? (fun c => c.commitment_id == cid) := by
        simp [List.find?, hc]
      simp only [updateFirstCommitment]
      rw [if_neg hc, List.map_cons, ih cid c2 (fun c hfc => hm c (by rw [← this]; exact hfc))]
      rfl

/-- A found commitment is a member carrying the requested id. -/
theorem Customer.get_commitment_some {cust : Customer} {cid : Nat} {c : Commitment}
    (h : cust.get_commitment cid = some c) :
    c ∈ cust.commitments ∧ c.commitment_id = cid := by
  unfold Customer.get_commitment at h
  refine ⟨List.mem_of_find?_eq_some h, ?_⟩
  have := List.find?_some h
  simpa using this

/-- The active commitment is the positionally last one, and it passes
`is_active`. -/
theorem Customer.get_active_some {cust : Customer} {now : Nat} {a : Commitment}
    (h : cust.get_active_commitment now = some a) :
    cust.commitments.getLast? = some a ∧ a.is_active now = true := by
  unfold Customer.get_active_commitment at h
  cases hl : cust.commitments.getLast? with
  | none => simp only [hl] at h; cases h
  | some last =>
    simp only [hl] at h
    by_cases ha : last.is_active now
    · simp only [ha, if_true, Option.some.injEq] at h
      subst h
      exact ⟨rfl, ha⟩
    · rw [if_neg ha] at h; cases h

/-- Without an active commitment, the last list element (if any) fails
`is_active`. -/
theorem Customer.get_active_none {cust : Customer} {now : Nat}
    (h : cust.get_active_commitment now = none) :
    ∀ a, cust.commitments.getLast? = some a → a.is_active now = false := by
  intro a ha
  unfold Customer.get_active_commitment at h
  simp only [ha] at h
  by_cases hb : a.is_active now
  · simp only [hb, if_true] at h; cases h
  · simpa using hb

/-- `getLast?` read through `getElem?` at index `length - 1`. -/
theorem getLast?_getElem? {α : Type} {l : List α} {a : α} (h : l.getLast? = some a) :
    l[l.length - 1]? = some a := by
  rw [← List.getLast?_eq_getElem? l]; exact h

/-- Replacing the first commitment with the given id by a structurally
equal one preserves the structural projection. -/
theorem updateFirst_shapes {cust : Customer} {cid : Nat} {c c2 : Commitment}
    (hg : cust.get_commitment cid = some c) (hsh : cShape c2 = cShape c) :
    shapes { cust with commitments := updateFirstCommitment cust.commitments cid c2 } =
      shapes cust := by
  apply updateFirst_map_cShape
  intro c' hfc
  unfold Customer.get_commitment at hg
  rw [hg] at hfc
  simp only [Option.some.injEq] at hfc
  subst hfc
  exact hsh

/-- A successful `Customer::add_purchase` never changes ids, statuses or
validity deadlines. -/
theorem Customer.add_purchase_shapes {cust : Customer} {now cid : Nat}
    {p : PurchaseInfo} {cust2 : Customer}
    (h : Customer.add_purchase cust now cid p = Except.ok cust2) :
    shapes cust2 = shapes cust := by
  unfold Customer.add_purchase at h
  by_cases hh : cust.has_commitment cid
  · rw [if_neg (by simpa using hh)] at h
    cases hga : cust.get_active_commitment now with
    | none => simp only [hga] at h; cases h
    | some a =>
      simp only [hga] at h
      by_cases hid : a.commitment_id = cid
      · simp only [hid, if_true] at h
        cases hadd : a.add_purchase p with
        | ok c2 =>
          simp only [hadd, Except.ok.injEq] at h
          subst h
          obtain ⟨hsh, -, -, -⟩ := Commitment.add_purchase_ok hadd
          have hlast := (Customer.get_active_some hga).1
          have hget : cust.commitments[cust.commitments.length - 1]? = some a :=
            getLast?_getElem? hlast
          show (cust.commitments.set (cust.commitments.length - 1) c2).map cShape =
            cust.commitments.map cShape
          rw [List.map_set, hsh]
          exact set_self_of_getElem? _ _ _ (by rw [List.getElem?_map, hget]; rfl)
        | error e =>
          simp only [hadd, Except.ok.injEq] at h
          subst h
          rfl
      · simp only [hid, if_false] at h; cases h
  · rw [if_pos (by simpa using hh)] at h; cases h

/-- The recursive `Customer::remove_purchase` never changes ids, statuses
or validity deadlines, whatever the fuel. -/
theorem remove_purchase_go_shapes :
    ∀ (fuel : Nat) (cust : Customer) (cid pid : Nat) (cust2 : Customer),
      Customer.remove_purchase_go fuel cust cid pid = Except.ok cust2 →
      shapes cust2 = shapes cust := by
  intro fuel
  induction fuel with
  | zero => intro cust cid pid cust2 h; cases h
  | succ fuel ih =>
    intro cust cid pid cust2 h
    simp only [Customer.remove_purchase_go] at h
    cases hg : cust.get_commitment cid with
    | none => simp only [hg] at h; cases h
    | some c =>
      simp only [hg] at h
      cases hst : c.status with
      | Valid =>
        simp only [hst] at h
        cases hr : c.remove_purchase pid with
        | ok c2 =>
          simp only [hr, Except.ok.injEq] at h
          subst h
          obtain ⟨q, -, hsh, -, -⟩ := Commitment.remove_purchase_ok hr
          exact updateFirst_shapes hg hsh
        | error e => simp only [hr] at h; cases h
      | Withdrawn s =>
        simp only [hst] at h
        cases hr : c.remove_purchase pid with
        | ok c2 =>
          simp only [hr] at h
          obtain ⟨q, -, hsh, -, -⟩ := Commitment.remove_purchase_ok hr
          rw [ih _ s pid cust2 h]
          exact updateFirst_shapes hg hsh
        | error e =>
          simp only [hr] at h
          exact ih _ s pid cust2 h

/-- `Customer::remove_purchase` never changes ids, statuses or validity
deadlines. -/
theorem Customer.remove_purchase_shapes {cust : Customer} {cid pid : Nat}
    {cust2 : Customer}
    (h : Customer.remove_purchase cust cid pid = Except.ok cust2) :
    shapes cust2 = shapes cust :=
  remove_purchase_go_shapes _ cust cid pid cust2 h

example : u32sub 0 5 = 4294967291 := by decide
example : civilYearOfDays 0 = 1970 := by decide
example : daysOfJan1 1971 = 365 := by decide
example : (Commitment.new 0 1000 7 1 10).isOk = false := by decide

/-! ### Structural invariants of reachable customer states -/

/-- All commitment ids of a customer are pairwise distinct. -/
def NodupIds (cust : Customer) : Prop := (commitmentIds cust).Nodup

/-- Every `Withdrawn` link points to a commitment strictly later in the
list (the forward-only withdrawal chain). -/
def ChainWF (cust : Customer) : Prop :=
  ∀ (i : Nat) (c : Commitment) (s : Nat), cust.commitments[i]? = some c →
    c.status = CommitmentStatus.Withdrawn s →
    ∃ j c2, i < j ∧ cust.commitments[j]? = some c2 ∧ c2.commitment_id = s

/-- Every commitment other than the positionally last one is inactive from
instant `t` on: withdrawn, or already expired at `t`. -/
def NonlastInactive (cust : Customer) (t : Nat) : Prop :=
  ∀ (i : Nat) (c : Commitment), cust.commitments[i]? = some c →
    i + 1 < cust.commitments.length →
    c.status ≠ CommitmentStatus.Valid ∨ c.valid_till < t

/-- Structural well-formedness of a customer state at instant `t`. -/
def StructWF (cust : Customer) (t : Nat) : Prop :=
  cust.commitments ≠ [] ∧ NodupIds cust ∧ ChainWF cust ∧ NonlastInactive cust t

/-- Structurally equal commitments share id, status and deadline. -/
theorem cShape_fields {c c' : Commitment} (h : cShape c = cShape c') :
    c.commitment_id = c'.commitment_id ∧ c.status = c'.status ∧
      c.valid_till = c'.valid_till := by
  simpa [cShape, Prod.ext_iff] using h

/-- Pointwise reading of an equality of structural projections. -/
theorem shapes_getElem? {cust cust2 : Customer} (hsh : shapes cust2 = shapes cust)
    (i : Nat) :
    cust2.commitments[i]?.map cShape = cust.commitments[i]?.map cShape := by
  have h := congrArg (fun l => l[i]?) hsh
  simpa [shapes, List.getElem?_map] using h

/-- Equal structural projections force equal list lengths. -/
theorem shapes_length {cust cust2 : Customer} (hsh : shapes cust2 = shapes cust) :
    cust2.commitments.length = cust.commitments.length := by
  have h := congrArg List.length hsh
  simpa [shapes] using h

/-- The id list is the first component of the structural projection. -/
theorem commitmentIds_eq_map_shapes (cust : Customer) :
    commitmentIds cust = (shapes cust).map Prod.fst := by
  unfold commitmentIds shapes
  rw [List.map_map]
  rfl

/-- Structural well-formedness only depends on the structural projection. -/
theorem StructWF.of_shapes_eq {cust cust2 : Customer} {t : Nat}
    (hsh : shapes cust2 = shapes cust) (h : StructWF cust t) : StructWF cust2 t := by
  obtain ⟨hne, hnd, hch, hnl⟩ := h
  have hlen := shapes_length hsh
  have hpt : ∀ (i : Nat) (c : Commitment), cust2.commitments[i]? = some c →
      ∃ c', cust.commitments[i]? = some c' ∧ cShape c = cShape c' := by
    intro i c hc
    have := shapes_getElem? hsh i
    rw [hc] at this
    cases hc' : cust.commitments[i]? with
    | none => rw [hc'] at this; cases this
    | some c' =>
      rw [hc'] at this
      simp only [Option.map_some', Option.some.injEq] at this
      exact ⟨c', rfl, this⟩
  have hpt' : ∀ (i : Nat) (c' : Commitment), cust.commitments[i]? = some c' →
      ∃ c, cust2.commitments[i]? = some c ∧ cShape c = cShape c' := by
    intro i c' hc'
    have := shapes_getElem? hsh i
    rw [hc'] at this
    cases hc : cust2.commitments[i]? with
    | none => rw [hc] at this; cases this
    | some c =>
      rw [hc] at this
      simp only [Option.map_some', Option.some.injEq] at this
      exact ⟨c, rfl, this⟩
  refine ⟨?_, ?_, ?_, ?_⟩
  · intro hnil
    apply hne
    have : cust.commitments.length = 0 := by rw [← hlen, hnil]; rfl
    exact List.length_eq_zero.mp this
  · unfold NodupIds
    rw [commitmentIds_eq_map_shapes, hsh, ← commitmentIds_eq_map_shapes]
    exact hnd
  · intro i c s hc hs
    obtain ⟨c', hc', hshc⟩ := hpt i c hc
    obtain ⟨-, hst, -⟩ := cShape_fields hshc
    obtain ⟨j, c2, hij, hj, hid⟩ := hch i c' s hc' (by rw [← hst]; exact hs)
    obtain ⟨c2', hc2', hshc2⟩ := hpt' j c2 hj
    obtain ⟨hid2, -, -⟩ := cShape_fields hshc2
    exact ⟨j, c2', hij, hc2', by rw [hid2]; exact hid⟩
  · intro i c hc hi
    obtain ⟨c', hc', hshc⟩ := hpt i c hc
    obtain ⟨-, hst, hvt⟩ := cShape_fields hshc
    have := hnl i c' hc' (by rw [← hlen]; exact hi)
    rw [← hst, ← hvt] at this
    exact this

/-- Structural well-formedness is monotone in the clock. -/
theorem StructWF.mono {cust : Customer} {t now : Nat}
    (h : StructWF cust t) (hle : t ≤ now) : StructWF cust now := by
  obtain ⟨hne, hnd, hch, hnl⟩ := h
  exact ⟨hne, hnd, hch, fun i c hc hi =>
    (hnl i c hc hi).imp id (fun hv => Nat.lt_of_lt_of_le hv hle)⟩

/-- Reading `is_active = false`. -/
theorem is_active_false {c : Commitment} {now : Nat}
    (h : c.is_active now = false) :
    c.status ≠ CommitmentStatus.Valid ∨ c.valid_till < now := by
  unfold Commitment.is_active at h
  cases hs : c.status with
  | Valid =>
    rw [hs] at h
    right
    have : ¬ now ≤ c.valid_till := by simpa using h
    omega
  | Withdrawn s => left; intro hv; cases hv

/-- Reading `is_active = true`. -/
theorem is_active_true {c : Commitment} {now : Nat}
    (h : c.is_active now = true) :
    c.status = CommitmentStatus.Valid ∧ now ≤ c.valid_till := by
  unfold Commitment.is_active at h
  cases hs : c.status with
  | Valid =>
    rw [hs] at h
    exact ⟨rfl, by simpa using h⟩
  | Withdrawn s => simp only [hs] at h; cases h

/-- The commitment that `Commitment::withdraw` hands back for appending:
fresh id and validity window, inherited balance and full purchase log,
stamped with the withdrawal call's creation data. -/
def withdrawnSuccessor (a : Commitment) (now new_target new_discount_percentage
    created_by freshId : Nat) : Commitment :=
  { commitment_id := freshId, target := new_target
    discount_percentage := new_discount_percentage
    valid_till := jan1Ts (tsYear now + 1), balance := a.balance
    purchase_log := a.purchase_log, status := CommitmentStatus.Valid
    created_at := now, created_by := created_by }

/-- What a successful `Commitment::withdraw` produces. -/
theorem Commitment.withdraw_ok {c : Commitment} {now nt nd cb fid : Nat}
    {a2 nc : Commitment}
    (h : c.withdraw now nt nd cb fid = Except.ok (a2, nc)) :
    nd ≤ 6 ∧ a2 = { c with status := CommitmentStatus.Withdrawn fid } ∧
      nc = withdrawnSuccessor c now nt nd cb fid := by
  unfold Commitment.withdraw at h
  cases hn : Commitment.new now nt nd cb fid with
  | error e => simp only [hn] at h; cases h
  | ok n0 =>
    obtain ⟨hd, hn0⟩ := Commitment.new_ok hn
    subst hn0
    simp only [hn, Except.ok.injEq, Prod.mk.injEq] at h
    exact ⟨hd, h.1.symm, h.2.symm⟩

/-- What a successful `Customer::add_commitment` does when an active
commitment exists: withdraw it in place and append its successor. -/
theorem Customer.add_commitment_ok_active {cust : Customer}
    {now nt nd cb fid : Nat} {cust2 : Customer} {a : Commitment}
    (hga : cust.get_active_commitment now = some a)
    (h : Customer.add_commitment cust now nt nd cb fid = Except.ok cust2) :
    nd ≤ 6 ∧
      cust2 = { cust with
        commitments :=
          (cust.commitments.set (cust.commitments.length - 1)
            { a with status := CommitmentStatus.Withdrawn fid }) ++
            [withdrawnSuccessor a now nt nd cb fid] } := by
  unfold Customer.add_commitment at h
  simp only [hga] at h
  cases hw : a.withdraw now nt nd cb fid with
  | error e => simp only [hw] at h; cases h
  | ok pair =>
    obtain ⟨a2, nc⟩ := pair
    obtain ⟨hd, ha2, hnc⟩ := Commitment.withdraw_ok hw
    subst ha2; subst hnc
    simp only [hw, Except.ok.injEq] at h
    exact ⟨hd, h.symm⟩

/-- What a successful `Customer::add_commitment` does when no active
commitment exists: append a brand-new commitment. -/
theorem Customer.add_commitment_ok_none {cust : Customer}
    {now nt nd cb fid : Nat} {cust2 : Customer}
    (hga : cust.get_active_commitment now = none)
    (h : Customer.add_commitment cust now nt nd cb fid = Except.ok cust2) :
    nd ≤ 6 ∧
      cust2 = { cust with
        commitments := cust.commitments ++
          [{ commitment_id := fid, target := nt, discount_percentage := nd
             valid_till := jan1Ts (tsYear now + 1), balance := 0, purchase_log := []
             status := CommitmentStatus.Valid, created_at := now, created_by := cb }] } := by
  unfold Customer.add_commitment at h
  simp only [hga] at h
  cases hn : Commitment.new now nt nd cb fid with
  | error e => simp only [hn] at h; cases h
  | ok n0 =>
    obtain ⟨hd, hn0⟩ := Commitment.new_ok hn
    subst hn0
    simp only [hn, Except.ok.injEq] at h
    exact ⟨hd, h.symm⟩

/-- What a successful `Customer::new` produces. -/
theorem Customer.new_result {now customer_id target dp cb fid : Nat} {cust : Customer}
    (h : Customer.new now customer_id target dp cb fid = Except.ok cust) :
    dp ≤ 6 ∧
      cust = { customer_id, created_at := now, created_by := cb
               commitments :=
                 [{ commitment_id := fid, target, discount_percentage := dp
                    valid_till := jan1Ts (tsYear now + 1), balance := 0
                    purchase_log := [], status := CommitmentStatus.Valid
                    created_at := now, created_by := cb }] } := by
  unfold Customer.new at h
  cases hn : Commitment.new now target dp cb fid with
  | error e => simp only [hn] at h; cases h
  | ok n0 =>
    obtain ⟨hd, hn0⟩ := Commitment.new_ok hn
    subst hn0
    simp only [hn, Except.ok.injEq] at h
    exact ⟨hd, h.symm⟩

/-- A fresh customer is structurally well-formed. -/
theorem StructWF_new {now customer_id target dp cb fid : Nat} {cust : Customer}
    (h : Customer.new now customer_id target dp cb fid = Except.ok cust) :
    StructWF cust now := by
  obtain ⟨-, hc⟩ := Customer.new_result h
  subst hc
  refine ⟨by simp, ?_, ?_, ?_⟩
  · unfold NodupIds commitmentIds
    simp
  · intro i c s hci hs
    cases i with
    | zero =>
      simp only [List.getElem?_cons_zero, Option.some.injEq] at hci
      rw [← hci] at hs
      cases hs
    | succ n => simp at hci
  · intro i c hci hi
    simp at hi

/-- `Customer::add_purchase` preserves structural well-formedness. -/
theorem StructWF_add_purchase {cust : Customer} {t now cid : Nat}
    {p : PurchaseInfo} {cust2 : Customer}
    (hwf : StructWF cust t) (hle : t ≤ now)
    (h : Customer.add_purchase cust now cid p = Except.ok cust2) :
    StructWF cust2 now :=
  StructWF.of_shapes_eq (Customer.add_purchase_shapes h) (hwf.mono hle)

/-- `Customer::remove_purchase` preserves structural well-formedness. -/
theorem StructWF_remove_purchase {cust : Customer} {t now cid pid : Nat}
    {cust2 : Customer}
    (hwf : StructWF cust t) (hle : t ≤ now)
    (h : Customer.remove_purchase cust cid pid = Except.ok cust2) :
    StructWF cust2 now :=
  StructWF.of_shapes_eq (Customer.remove_purchase_shapes h) (hwf.mono hle)

/-- `Customer::add_commitment` preserves structural well-formedness when
called with a fresh id. -/
theorem StructWF_add_commitment {cust : Customer} {t now nt nd cb fid : Nat}
    {cust2 : Customer}
    (hwf : StructWF cust t) (hle : t ≤ now) (hfresh : fid ∉ commitmentIds cust)
    (h : Customer.add_commitment cust now nt nd cb fid = Except.ok cust2) :
    StructWF cust2 now := by
  obtain ⟨hne, hnd, hch, hnl⟩ := hwf.mono hle
  cases hga : cust.get_active_commitment now with
  | none =>
    obtain ⟨-, hc2⟩ := Customer.add_commitment_ok_none hga h
    subst hc2
    refine ⟨by simp, ?_, ?_, ?_⟩
    · unfold NodupIds commitmentIds at hnd ⊢
      unfold commitmentIds at hfresh
      simp only [List.map_append, List.map_cons, List.map_nil]
      rw [List.nodup_append]
      refine ⟨hnd, by simp, ?_⟩
      intro x hx hxmem
      simp at hxmem
      rw [hxmem] at hx
      exact hfresh hx
    · intro i c s hci hs
      by_cases hilen : i < cust.commitments.length
      · rw [List.getElem?_append_left hilen] at hci
        obtain ⟨j, c2, hij, hj, hid⟩ := hch i c s hci hs
        have hjlen : j < cust.commitments.length := (List.getElem?_eq_some.mp hj).1
        exact ⟨j, c2, hij, by simp only [List.getElem?_append_left hjlen]; exact hj, hid⟩
      · push_neg at hilen
        rw [List.getElem?_append_right hilen] at hci
        cases hii : i - cust.commitments.length with
        | zero =>
          rw [hii] at hci
          simp only [List.getElem?_cons_zero, Option.some.injEq] at hci
          rw [← hci] at hs
          cases hs
        | succ m =>
          rw [hii] at hci
          simp at hci
    · intro i c hci hi
      have hlen2 : i < cust.commitments.length := by
        simp only [List.length_append, List.length_cons, List.length_nil] at hi
        omega
      rw [List.getElem?_append_left hlen2] at hci
      by_cases hlast : i + 1 < cust.commitments.length
      · exact hnl i c hci hlast
      · have hieq : i = cust.commitments.length - 1 := by omega
        have hgl : cust.commitments.getLast? = some c := by
          rw [List.getLast?_eq_getElem?, ← hieq]
          exact hci
        exact is_active_false (Customer.get_active_none hga c hgl)
  | some a =>
    obtain ⟨-, hc2⟩ := Customer.add_commitment_ok_active hga h
    subst hc2
    obtain ⟨hgl, hact⟩ := Customer.get_active_some hga
    obtain ⟨hstA, -⟩ := is_active_true hact
    have hgetA : cust.commitments[cust.commitments.length - 1]? = some a :=
      getLast?_getElem? hgl
    have hlenpos : 0 < cust.commitments.length := by
      have := (List.getElem?_eq_some.mp hgetA).1
      omega
    have hsetlen : (cust.commitments.set (cust.commitments.length - 1)
        { a with status := CommitmentStatus.Withdrawn fid }).length =
        cust.commitments.length := by simp
    have hset_last : (cust.commitments.set (cust.commitments.length - 1)
        { a with status := CommitmentStatus.Withdrawn fid })[cust.commitments.length - 1]? =
        some { a with status := CommitmentStatus.Withdrawn fid } := by
      rw [List.getElem?_set_self]
      simp [Nat.sub_lt hlenpos Nat.one_pos]
    have hset_ne : ∀ i, i ≠ cust.commitments.length - 1 →
        (cust.commitments.set (cust.commitments.length - 1)
          { a with status := CommitmentStatus.Withdrawn fid })[i]? =
        cust.commitments[i]? := by
      intro i hne
      exact List.getElem?_set_ne (Ne.symm hne)
    have hids : (cust.commitments.set (cust.commitments.length - 1)
        { a with status := CommitmentStatus.Withdrawn fid }).map Commitment.commitment_id =
        cust.commitments.map Commitment.commitment_id := by
      rw [List.map_set]
      exact set_self_of_getElem? _ _ _ (by rw [List.getElem?_map, hgetA]; rfl)
    refine ⟨by simp, ?_, ?_, ?_⟩
    · unfold NodupIds commitmentIds at hnd ⊢
      unfold commitmentIds at hfresh
      simp only [List.map_append, List.map_cons, List.map_nil]
      rw [hids, List.nodup_append]
      refine ⟨hnd, by simp, ?_⟩
      intro x hx hxmem
      simp [withdrawnSuccessor] at hxmem
      rw [hxmem] at hx
      exact hfresh hx
    · intro i c s hci hs
      by_cases hilen : i < cust.commitments.length
      · rw [List.getElem?_append_left (by rw [hsetlen]; exact hilen)] at hci
        by_cases hieq : i = cust.commitments.length - 1
        · rw [hieq, hset_last] at hci
          simp only [Option.some.injEq] at hci
          rw [← hci] at hs
          have hfs : fid = s := by simpa using hs
          refine ⟨cust.commitments.length, withdrawnSuccessor a now nt nd cb fid,
            by omega, ?_, ?_⟩
          · simp only [List.getElem?_append_right (le_of_eq hsetlen.symm)]
            simp [hsetlen]
          · simp [withdrawnSuccessor, hfs]
        · rw [hset_ne i hieq] at hci
          obtain ⟨j, c2, hij, hj, hid⟩ := hch i c s hci hs
          have hjlen : j < cust.commitments.length := (List.getElem?_eq_some.mp hj).1
          by_cases hjeq : j = cust.commitments.length - 1
          · have hc2a : c2 = a := by
              rw [hjeq, hgetA] at hj
              simpa using hj.symm
            have hjlenL : j < (cust.commitments.set (cust.commitments.length - 1)
                { a with status := CommitmentStatus.Withdrawn fid }).length := by
              rw [hsetlen]; exact hjlen
            refine ⟨j, { a with status := CommitmentStatus.Withdrawn fid }, hij, ?_, ?_⟩
            · simp only [hjeq] at hjlenL ⊢
              rw [List.getElem?_append_left hjlenL, hset_last]
            · rw [← hc2a] at *
              simpa using hid
          · have hjlenL : j < (cust.commitments.set (cust.commitments.length - 1)
                { a with status := CommitmentStatus.Withdrawn fid }).length := by
              rw [hsetlen]; exact hjlen
            refine ⟨j, c2, hij, ?_, hid⟩
            simp only [List.getElem?_append_left hjlenL, hset_ne j hjeq]
            exact hj
      · push_neg at hilen
        rw [List.getElem?_append_right (by rw [hsetlen]; exact hilen)] at hci
        rw [hsetlen] at hci
        cases hii : i - cust.commitments.length with
        | zero =>
          rw [hii] at hci
          simp only [List.getElem?_cons_zero, Option.some.injEq] at hci
          rw [← hci] at hs
          simp [withdrawnSuccessor] at hs
        | succ m =>
          rw [hii] at hci
          simp at hci
    · intro i c hci hi
      have hlen2 : i < cust.commitments.length := by
        simp only [List.length_append, List.length_cons, List.length_nil, hsetlen] at hi
        omega
      rw [List.getElem?_append_left (by rw [hsetlen]; exact hlen2)] at hci
      by_cases hieq : i = cust.commitments.length - 1
      · rw [hieq, hset_last] at hci
        simp only [Option.some.injEq] at hci
        left
        rw [← hci]
        intro hv
        cases hv
      · rw [hset_ne i hieq] at hci
        have hnext : i + 1 < cust.commitments.length := by omega
        exact hnl i c hci hnext

/-- Every reachable customer state is structurally well-formed at the
clock value of its last operation. -/
theorem Reaches.structWF {cust : Customer} {t : Nat} (h : Reaches cust t) :
    StructWF cust t := by
  induction h with
  | init now customer_id target dp cb fid cust h => exact StructWF_new h
  | addCommitment now nt nd cb fid hr hle hfresh h ih =>
    exact StructWF_add_commitment ih hle hfresh h
  | addPurchase now cid pid tn tg ad hr hle hg h ih =>
    exact StructWF_add_purchase ih hle h
  | removePurchase now cid pid hr hle h ih =>
    exact StructWF_remove_purchase ih hle h

/-! ### The claims -/

/-- C3: for every reachable customer state and every instant `now` at or
after the state's last operation (the clock never decreases), at most one
commitment satisfies `is_active`, and if one does it is the last element
of the list; a withdrawn (superseded) commitment is never active, even if
its own time window is still open. -/
theorem claim_C3_single_positional_active {cust : Customer} {t : Nat}
    (h : Reaches cust t) (now : Nat) (hle : t ≤ now) :
    (∀ (i : Nat) (c : Commitment), cust.commitments[i]? = some c →
        c.is_active now = true → i = cust.commitments.length - 1) ∧
    (∀ (i j : Nat) (c c2 : Commitment), cust.commitments[i]? = some c →
        cust.commitments[j]? = some c2 → c.is_active now = true →
        c2.is_active now = true → i = j) ∧
    (∀ (i : Nat) (c : Commitment) (s : Nat), cust.commitments[i]? = some c →
        c.status = CommitmentStatus.Withdrawn s → c.is_active now = false) := by
  obtain ⟨hne, hnd, hch, hnl⟩ := h.structWF.mono hle
  have hmain : ∀ (i : Nat) (c : Commitment), cust.commitments[i]? = some c →
      c.is_active now = true → i = cust.commitments.length - 1 := by
    intro i c hci hact
    have hilen : i < cust.commitments.length := (List.getElem?_eq_some.mp hci).1
    by_contra hne2
    have hstep : i + 1 < cust.commitments.length := by omega
    obtain ⟨hstV, hvt⟩ := is_active_true hact
    rcases hnl i c hci hstep with hbad | hbad
    · exact hbad hstV
    · omega
  refine ⟨hmain, ?_, ?_⟩
  · intro i j c c2 hci hcj hact hact2
    rw [hmain i c hci hact, hmain j c2 hcj hact2]
  · intro i c s hci hs
    simp [Commitment.is_active, hs]

/-- C3 witness: in the concrete trace state `traceCust1` (whose single
commitment is active at instant 5), every active commitment sits at the
last position. -/
theorem claim_C3_single_positional_active_witness :
    0 = traceCust1.commitments.length - 1 :=
  (claim_C3_single_positional_active traceCust1_reachable 5 (by decide)).1 0
    { traceCommit0 with balance := 5, purchase_log := [tracePurchase] }
    (by decide) (by decide)

/-- The success equation of `Commitment::new` for valid discounts. -/
theorem Commitment.new_eq_ok (now target dp cb fid : Nat) (hd : dp ≤ 6) :
    Commitment.new now target dp cb fid = Except.ok
      { commitment_id := fid, target, discount_percentage := dp
        valid_till := jan1Ts (tsYear now + 1), balance := 0, purchase_log := []
        status := CommitmentStatus.Valid, created_at := now, created_by := cb } := by
  simp [Commitment.new, hd]

/-- The success equation of `Customer::new` for valid discounts. -/
theorem Customer.new_eq (now customer_id target dp cb fid : Nat) (hd : dp ≤ 6) :
    Customer.new now customer_id target dp cb fid = Except.ok
      { customer_id, created_at := now, created_by := cb
        commitments :=
          [{ commitment_id := fid, target, discount_percentage := dp
             valid_till := jan1Ts (tsYear now + 1), balance := 0, purchase_log := []
             status := CommitmentStatus.Valid, created_at := now, created_by := cb }] } := by
  rw [Customer.new, Commitment.new_eq_ok now target dp cb fid hd]

/-- C8: commitment creation succeeds exactly for discount percentages 0–6
inclusive; any larger value yields the validation error, and
`Customer::new` propagates both outcomes. -/
theorem claim_C8_discount_validation
    (now target discount_percentage created_by freshId customer_id : Nat) :
    ((∃ c, Commitment.new now target discount_percentage created_by freshId =
        Except.ok c) ↔ discount_percentage ≤ 6) ∧
    (6 < discount_percentage →
      Commitment.new now target discount_percentage created_by freshId =
        Except.error "A kedvezmény mértéke 0-6% között lehet!") ∧
    ((∃ cu, Customer.new now customer_id target discount_percentage created_by
        freshId = Except.ok cu) ↔ discount_percentage ≤ 6) ∧
    (6 < discount_percentage →
      Customer.new now customer_id target discount_percentage created_by freshId =
        Except.error "A kedvezmény mértéke 0-6% között lehet!") := by
  by_cases hd : discount_percentage ≤ 6
  · exact ⟨⟨fun _ => hd,
      fun _ => ⟨_, Commitment.new_eq_ok now target discount_percentage created_by
        freshId hd⟩⟩,
      fun hbad => absurd hd (by omega),
      ⟨fun _ => hd,
       fun _ => ⟨_, Customer.new_eq now customer_id target discount_percentage
        created_by freshId hd⟩⟩,
      fun hbad => absurd hd (by omega)⟩
  · have herr : Commitment.new now target discount_percentage created_by freshId =
        Except.error "A kedvezmény mértéke 0-6% között lehet!" := by
      simp [Commitment.new, hd]
    have herr2 : Customer.new now customer_id target discount_percentage created_by
        freshId = Except.error "A kedvezmény mértéke 0-6% között lehet!" := by
      simp [Customer.new, herr]
    refine ⟨⟨?_, fun hc => absurd hc hd⟩, fun _ => herr,
      ⟨?_, fun hc => absurd hc hd⟩, fun _ => herr2⟩
    · rintro ⟨c, hc⟩
      rw [herr] at hc
      cases hc
    · rintro ⟨cu, hcu⟩
      rw [herr2] at hcu
      cases hcu

/-- C8 witness: discount 3 is accepted, discount 7 is rejected with the
validation error, both directly and through `Customer::new`. -/
theorem claim_C8_discount_validation_witness :
    (∃ c, Commitment.new 0 1000 3 1 10 = Except.ok c) ∧
    Commitment.new 0 1000 7 1 10 =
      Except.error "A kedvezmény mértéke 0-6% között lehet!" ∧
    Customer.new 0 77 1000 7 1 10 =
      Except.error "A kedvezmény mértéke 0-6% között lehet!" :=
  ⟨(claim_C8_discount_validation 0 1000 3 1 10 77).1.mpr (by decide),
   (claim_C8_discount_validation 0 1000 7 1 10 77).2.1 (by decide),
   (claim_C8_discount_validation 0 1000 7 1 10 77).2.2.2 (by decide)⟩

/-- Equal structural projections force equal `valid_till` lists. -/
theorem validTills_of_shapes {cust cust2 : Customer}
    (hsh : shapes cust2 = shapes cust) : validTills cust2 = validTills cust := by
  have hgen : ∀ cu : Customer, validTills cu = (shapes cu).map (fun x => x.2.2) := by
    intro cu
    unfold validTills shapes
    rw [List.map_map]
    rfl
  rw [hgen, hgen, hsh]

/-- C9: a successfully created commitment's `valid_till` is 00:00:00 UTC
on January 1 of the year following the creation year (in particular a
whole-day boundary), and no public operation ever changes the `valid_till`
of an existing commitment — `add_commitment` only appends a new deadline. -/
theorem claim_C9_valid_till :
    (∀ (now target dp cb fid : Nat) (c : Commitment),
        Commitment.new now target dp cb fid = Except.ok c →
        c.valid_till = jan1Ts (tsYear now + 1) ∧ c.valid_till % 86400 = 0) ∧
    (∀ (cust : Customer) (now cid : Nat) (p : PurchaseInfo) (cust2 : Customer),
        Customer.add_purchase cust now cid p = Except.ok cust2 →
        validTills cust2 = validTills cust) ∧
    (∀ (cust : Customer) (cid pid : Nat) (cust2 : Customer),
        Customer.remove_purchase cust cid pid = Except.ok cust2 →
        validTills cust2 = validTills cust) ∧
    (∀ (cust : Customer) (now nt nd cb fid : Nat) (cust2 : Customer),
        Customer.add_commitment cust now nt nd cb fid = Except.ok cust2 →
        ∃ v, validTills cust2 = validTills cust ++ [v]) := by
  refine ⟨?_, ?_, ?_, ?_⟩
  · intro now target dp cb fid c h
    obtain ⟨-, hc⟩ := Commitment.new_ok h
    subst hc
    exact ⟨rfl, by simp [jan1Ts, Nat.mul_mod_right]⟩
  · intro cust now cid p cust2 h
    exact validTills_of_shapes (Customer.add_purchase_shapes h)
  · intro cust cid pid cust2 h
    exact validTills_of_shapes (Customer.remove_purchase_shapes h)
  · intro cust now nt nd cb fid cust2 h
    cases hga : cust.get_active_commitment now with
    | none =>
      obtain ⟨-, hc2⟩ := Customer.add_commitment_ok_none hga h
      subst hc2
      exact ⟨jan1Ts (tsYear now + 1), by unfold validTills; simp⟩
    | some a =>
      obtain ⟨-, hc2⟩ := Customer.add_commitment_ok_active hga h
      subst hc2
      obtain ⟨hgl, -⟩ := Customer.get_active_some hga
      have hgetA := getLast?_getElem? hgl
      refine ⟨jan1Ts (tsYear now + 1), ?_⟩
      unfold validTills
      simp only [List.map_append, List.map_cons, List.map_nil]
      have hvt : (cust.commitments.set (cust.commitments.length - 1)
          { a with status := CommitmentStatus.Withdrawn fid }).map
            Commitment.valid_till =
          cust.commitments.map Commitment.valid_till := by
        rw [List.map_set]
        exact set_self_of_getElem? _ _ _ (by rw [List.getElem?_map, hgetA]; rfl)
      rw [hvt]
      rfl

/-- C9 witness: the trace's initial commitment, created at instant 0
(i.e. during 1970), is valid until 1971-01-01 00:00:00 UTC. -/
theorem claim_C9_valid_till_witness :
    Commitment.new 0 1000 2 1 10 = Except.ok traceCommit0 ∧
    traceCommit0.valid_till = jan1Ts (tsYear 0 + 1) ∧
    traceCommit0.valid_till % 86400 = 0 :=
  ⟨by decide, (claim_C9_valid_till.1 0 1000 2 1 10 traceCommit0 (by decide)).1,
   (claim_C9_valid_till.1 0 1000 2 1 10 traceCommit0 (by decide)).2⟩

/-- C6: `Customer::add_purchase` rejects the call with a conflict error
whenever the named commitment exists but is not the positional active
head — either because no commitment is currently active (including the
superseded-but-time-valid case) or because the active head has a different
id — and with a not-found error when the id is unknown entirely.  The
embedding is purely functional, so an error leaves the customer state
untouched by construction. -/
theorem claim_C6_add_purchase_conflicts (cust : Customer) (now cid : Nat)
    (p : PurchaseInfo) :
    (cust.has_commitment cid = true →
      (cust.get_active_commitment now = none →
        Customer.add_purchase cust now cid p = Except.error
          "A megadott vásárlónak nincs aktív commitmentje, így a vásárlás nem adható hozzá.") ∧
      (∀ a : Commitment, cust.get_active_commitment now = some a →
        a.commitment_id ≠ cid →
        Customer.add_purchase cust now cid p = Except.error
          "A megadott commitment helyett már van újabb.")) ∧
    (cust.has_commitment cid = false →
      Customer.add_purchase cust now cid p = Except.error
        "A megadott commitment ID nem szerepel a vásárlónál!") := by
  constructor
  · intro hh
    constructor
    · intro hga
      unfold Customer.add_purchase
      rw [if_neg (by simp [hh])]
      simp [hga]
    · intro a hga hne
      unfold Customer.add_purchase
      rw [if_neg (by simp [hh])]
      simp [hga, hne]
  · intro hh
    unfold Customer.add_purchase
    rw [if_pos (by simp [hh])]

/-- The successor commitment appended when the trace renews the
commitment (target 2000, discount 1 %, creator 2, fresh id 11). -/
def traceCommitB : Commitment :=
  { commitment_id := 11, target := 2000, discount_percentage := 1
    valid_till := 31536000, balance := 0
    purchase_log := [tracePurchase.set_removed]
    status := CommitmentStatus.Valid, created_at := 0, created_by := 2 }

/-- Trace state 4: `add_commitment` on `traceCust2` withdraws the old
commitment in favour of `traceCommitB`. -/
def traceCust4 : Customer :=
  { traceCust0 with
    commitments :=
      [{ traceCommit0 with
          balance := 0
          purchase_log := [tracePurchase.set_removed]
          status := CommitmentStatus.Withdrawn 11 }, traceCommitB] }

example : Customer.add_commitment traceCust2 0 2000 1 2 11 = Except.ok traceCust4 := by
  decide

/-- Trace state 4 is reachable through the public interface. -/
theorem traceCust4_reachable : Reaches traceCust4 0 :=
  Reaches.addCommitment 0 2000 1 2 11 traceCust2_reachable (Nat.le_refl 0)
    (by decide) (by decide)

/-- C6 witness: posting against the superseded commitment id 10 of
`traceCust4` hits the conflict error, and posting against an id the
customer never had hits the not-found error. -/
theorem claim_C6_add_purchase_conflicts_witness :
    Customer.add_purchase traceCust4 0 10 (PurchaseInfo.new 8 100 7 2 0) =
      Except.error "A megadott commitment helyett már van újabb." ∧
    Customer.add_purchase traceCust0 0 99 tracePurchase =
      Except.error "A megadott commitment ID nem szerepel a vásárlónál!" :=
  ⟨((claim_C6_add_purchase_conflicts traceCust4 0 10 (PurchaseInfo.new 8 100 7 2 0)).1
      (by decide)).2 traceCommitB (by decide) (by decide),
   (claim_C6_add_purchase_conflicts traceCust0 0 99 tracePurchase).2 (by decide)⟩

/-- C1 counterexample: `traceCust1`'s active commitment (id 10) already
holds an entry with purchase id 7, yet `Customer::add_purchase` with a new
entry carrying the same purchase id returns `Ok` with the customer
unchanged — the `let _ =` in the source discards the commitment-level
duplicate error instead of surfacing it. -/
theorem claim_C1_counterexample :
    Customer.add_purchase traceCust1 0 10 (PurchaseInfo.new 7 200 9 3 0) =
      Except.ok traceCust1 := by decide

/-- C1 (amended): posting a duplicate purchase id against the active
commitment leaves the ledger and balance unchanged, but the duplicate
error is swallowed: the call returns `Ok` with the customer unchanged
rather than failing. -/
theorem claim_C1_duplicate_swallowed {cust : Customer} {now : Nat} {a : Commitment}
    (p : PurchaseInfo)
    (hga : cust.get_active_commitment now = some a)
    (hdup : a.purchase_log.any (fun q => q.purchase_id == p.purchase_id) = true) :
    Customer.add_purchase cust now a.commitment_id p = Except.ok cust := by
  have hgl := (Customer.get_active_some hga).1
  have hmem : a ∈ cust.commitments := List.getElem?_mem (getLast?_getElem? hgl)
  have hh : cust.has_commitment a.commitment_id = true := by
    unfold Customer.has_commitment
    rw [List.any_eq_true]
    exact ⟨a, hmem, by simp⟩
  have herr : a.add_purchase p = Except.error
      "A megadott vásárlás már szerepel a vásárlási előzmények között!" := by
    unfold Commitment.add_purchase
    rw [if_pos hdup]
  unfold Customer.add_purchase
  rw [if_neg (by simp [hh])]
  simp [hga, herr]

/-- C1 witness: a concrete duplicate post against `traceCust1` comes back
`Ok` and unchanged. -/
theorem claim_C1_duplicate_swallowed_witness :
    Customer.add_purchase traceCust1 0 10 (PurchaseInfo.new 7 300 50 1 0) =
      Except.ok traceCust1 :=
  @claim_C1_duplicate_swallowed traceCust1 0
    { traceCommit0 with balance := 5, purchase_log := [tracePurchase] }
    (PurchaseInfo.new 7 300 50 1 0) (by decide) (by decide)

/-- C4: a successful `add_commitment` over an active commitment `a`
withdraws `a` in place with the fresh successor's id and appends the
successor `b` as the new last element; `b` carries a fresh id, a freshly
computed `valid_till`, the call's creation data and target/discount, and
inherits `a`'s balance and entire purchase ledger (removed entries
included, since the whole list is copied). -/
theorem claim_C4_withdraw_snapshot {cust : Customer} {now nt nd cb fid : Nat}
    {a : Commitment} {cust2 : Customer}
    (hga : cust.get_active_commitment now = some a)
    (hfresh : fid ∉ commitmentIds cust)
    (h : Customer.add_commitment cust now nt nd cb fid = Except.ok cust2) :
    ∃ b, cust2.commitments.getLast? = some b ∧
      cust2.commitments =
        (cust.commitments.set (cust.commitments.length - 1)
          { a with status := CommitmentStatus.Withdrawn b.commitment_id }) ++ [b] ∧
      b.commitment_id = fid ∧
      (∀ c ∈ cust.commitments, c.commitment_id ≠ b.commitment_id) ∧
      b.balance = a.balance ∧ b.purchase_log = a.purchase_log ∧
      b.valid_till = jan1Ts (tsYear now + 1) ∧
      b.created_at = now ∧ b.created_by = cb ∧
      b.target = nt ∧ b.discount_percentage = nd ∧
      b.status = CommitmentStatus.Valid := by
  obtain ⟨-, hc2⟩ := Customer.add_commitment_ok_active hga h
  subst hc2
  refine ⟨withdrawnSuccessor a now nt nd cb fid, List.getLast?_concat _, rfl, rfl,
    ?_, rfl, rfl, rfl, rfl, rfl, rfl, rfl, rfl⟩
  intro c hc hceq
  apply hfresh
  have hcf : c.commitment_id = fid := by
    simpa [withdrawnSuccessor] using hceq
  unfold commitmentIds
  rw [← hcf]
  exact List.mem_map_of_mem _ hc

/-- C4 witness: renewing `traceCust2`'s commitment concretely produces the
withdrawn predecessor and the snapshot-carrying successor `traceCommitB`. -/
theorem claim_C4_withdraw_snapshot_witness :
    ∃ b, traceCust4.commitments.getLast? = some b ∧
      traceCust4.commitments =
        (traceCust2.commitments.set (traceCust2.commitments.length - 1)
          { traceCommit0 with
              balance := 0
              purchase_log := [tracePurchase.set_removed]
              status := CommitmentStatus.Withdrawn b.commitment_id }) ++ [b] ∧
      b.commitment_id = 11 ∧
      (∀ c ∈ traceCust2.commitments, c.commitment_id ≠ b.commitment_id) ∧
      b.balance = 0 ∧ b.purchase_log = [tracePurchase.set_removed] ∧
      b.valid_till = jan1Ts (tsYear 0 + 1) ∧
      b.created_at = 0 ∧ b.created_by = 2 ∧
      b.target = 2000 ∧ b.discount_percentage = 1 ∧
      b.status = CommitmentStatus.Valid :=
  @claim_C4_withdraw_snapshot traceCust2 0 2000 1 2 11
    { traceCommit0 with balance := 0, purchase_log := [tracePurchase.set_removed] }
    traceCust4 (by decide) (by decide) (by decide)

/-- Marking the first match removed keeps it findable under the same
purchase id (the lookup never consults the `removed` flag). -/
theorem findPurchase_markFirstRemoved (l : List PurchaseInfo) (pid : Nat)
    (q : PurchaseInfo) (h : findPurchase l pid = some q) :
    findPurchase (markFirstRemoved l pid) pid = some q.set_removed := by
  induction l with
  | nil => cases h
  | cons p rest ih =>
    by_cases hp : ((fun x : PurchaseInfo => x.purchase_id == pid) p) = true
    · have h1 : findPurchase (p :: rest) pid = some p := by
        unfold findPurchase
        exact List.find?_cons_of_pos rest hp
      rw [h1] at h
      simp only [Option.some.injEq] at h
      subst h
      have hm : markFirstRemoved (p :: rest) pid = p.set_removed :: rest := by
        simp only [markFirstRemoved]
        rw [if_pos hp]
      rw [hm]
      unfold findPurchase
      exact List.find?_cons_of_pos rest
        (show ((fun x : PurchaseInfo => x.purchase_id == pid) p.set_removed) = true by
          simpa [PurchaseInfo.set_removed] using hp)
    · have hm : markFirstRemoved (p :: rest) pid = p :: markFirstRemoved rest pid := by
        simp only [markFirstRemoved]
        rw [if_neg hp]
      have h2 : findPurchase rest pid = some q := by
        unfold findPurchase at h
        rwa [List.find?_cons_of_neg rest hp] at h
      rw [hm]
      unfold findPurchase
      rw [List.find?_cons_of_neg (markFirstRemoved rest pid) hp]
      exact ih h2

/-- C7: when an entry with the given purchase id is present,
`Commitment::remove_purchase` succeeds; calling it a second time with the
same id succeeds again (the presence check ignores the `removed` flag,
which is already `true` on the refound entry) and subtracts the same gross
amount from the balance a second time. -/
theorem claim_C7_double_removal {c : Commitment} {pid : Nat} {q : PurchaseInfo}
    (h : findPurchase c.purchase_log pid = some q) :
    ∃ c1 c2 : Commitment,
      c.remove_purchase pid = Except.ok c1 ∧
      c1.balance = u32sub c.balance q.total_gross ∧
      findPurchase c1.purchase_log pid = some q.set_removed ∧
      q.set_removed.removed = true ∧
      q.set_removed.total_gross = q.total_gross ∧
      c1.remove_purchase pid = Except.ok c2 ∧
      c2.balance = u32sub (u32sub c.balance q.total_gross) q.total_gross := by
  have h1 : c.remove_purchase pid = Except.ok
      { c with purchase_log := markFirstRemoved c.purchase_log pid
               balance := u32sub c.balance q.total_gross } := by
    unfold Commitment.remove_purchase
    rw [h]
  have hf1 : findPurchase (markFirstRemoved c.purchase_log pid) pid =
      some q.set_removed := findPurchase_markFirstRemoved _ _ _ h
  have h2 : Commitment.remove_purchase
      { c with purchase_log := markFirstRemoved c.purchase_log pid
               balance := u32sub c.balance q.total_gross } pid =
      Except.ok
        { c with purchase_log := markFirstRemoved (markFirstRemoved c.purchase_log pid) pid
                 balance := u32sub (u32sub c.balance q.total_gross)
                   q.set_removed.total_gross } := by
    unfold Commitment.remove_purchase
    simp only [hf1]
  exact ⟨_, _, h1, rfl, hf1, rfl, rfl, h2, rfl⟩

/-- C7 witness: the trace commitment holding purchase 7 (gross 5, balance
5) can be double-removed, driving the balance from 5 to 0 and then to
`2^32 - 5`. -/
theorem claim_C7_double_removal_witness :
    ∃ c1 c2 : Commitment,
      Commitment.remove_purchase
        { traceCommit0 with balance := 5, purchase_log := [tracePurchase] } 7 =
        Except.ok c1 ∧
      c1.balance = u32sub 5 5 ∧
      findPurchase c1.purchase_log 7 = some tracePurchase.set_removed ∧
      tracePurchase.set_removed.removed = true ∧
      tracePurchase.set_removed.total_gross = 5 ∧
      c1.remove_purchase 7 = Except.ok c2 ∧
      c2.balance = u32sub (u32sub 5 5) 5 :=
  @claim_C7_double_removal
    { traceCommit0 with balance := 5, purchase_log := [tracePurchase] } 7 tracePurchase
    (by decide)

/-- C10: in the reachable state `traceCust2` the head commitment is
`Valid`, its ledger still yields the (already removed) entry for purchase
7 with gross 5 while the balance is 0, so `remove_purchase` reaches the
unguarded `balance -= total_gross` with `balance < total_gross` — and the
wrapping `u32` subtraction underflows to `2^32 - 5` instead of failing. -/
theorem claim_C10_unguarded_underflow :
    Reaches traceCust2 0 ∧
    Customer.get_commitment traceCust2 10 =
      some { traceCommit0 with
              balance := 0, purchase_log := [tracePurchase.set_removed] } ∧
    ({ traceCommit0 with
        balance := 0
        purchase_log := [tracePurchase.set_removed] } : Commitment).status =
      CommitmentStatus.Valid ∧
    findPurchase [tracePurchase.set_removed] 7 = some tracePurchase.set_removed ∧
    ({ traceCommit0 with
        balance := 0
        purchase_log := [tracePurchase.set_removed] } : Commitment).balance <
      tracePurchase.set_removed.total_gross ∧
    Commitment.remove_purchase
      { traceCommit0 with
          balance := 0, purchase_log := [tracePurchase.set_removed] } 7 =
      Except.ok
        { traceCommit0 with
            balance := 4294967291, purchase_log := [tracePurchase.set_removed] } ∧
    Customer.remove_purchase traceCust2 10 7 = Except.ok traceCust3 :=
  ⟨traceCust2_reachable, by decide, by decide, by decide, by decide, by decide,
   by decide⟩

/-- The discarded removal attempt a `Withdrawn` link performs before
recursing: remove the purchase from the named commitment if possible,
keep the state unchanged otherwise. -/
def attemptRemove (cust : Customer) (commitment_id purchase_id : Nat) : Customer :=
  match cust.get_commitment commitment_id with
  | some c =>
    match c.remove_purchase purchase_id with
    | Except.ok c2 =>
      { cust with
        commitments := updateFirstCommitment cust.commitments commitment_id c2 }
    | Except.error _ => cust
  | none => cust

/-- The discarded attempt never changes ids, statuses or deadlines. -/
theorem attemptRemove_shapes (cust : Customer) (cid pid : Nat) :
    shapes (attemptRemove cust cid pid) = shapes cust := by
  unfold attemptRemove
  cases hg : cust.get_commitment cid with
  | none => rfl
  | some c =>
    simp only [hg]
    cases hr : c.remove_purchase pid with
    | ok c2 =>
      obtain ⟨q, -, hsh, -, -⟩ := Commitment.remove_purchase_ok hr
      exact updateFirst_shapes hg hsh
    | error e => rfl

/-- Lower bound on every list position holding the given commitment id. -/
def IdxLB (cust : Customer) (cid k : Nat) : Prop :=
  ∀ (j : Nat) (c : Commitment), cust.commitments[j]? = some c →
    c.commitment_id = cid → k ≤ j

/-- `IdxLB` only depends on the structural projection. -/
theorem IdxLB_of_shapes {cust cust2 : Customer} (hsh : shapes cust2 = shapes cust)
    {cid k : Nat} (h : IdxLB cust cid k) : IdxLB cust2 cid k := by
  intro j c hj hcid
  have hpt := shapes_getElem? hsh j
  rw [hj] at hpt
  cases hc' : cust.commitments[j]? with
  | none => rw [hc'] at hpt; cases hpt
  | some c' =>
    rw [hc'] at hpt
    simp only [Option.map_some', Option.some.injEq] at hpt
    obtain ⟨hid, -, -⟩ := cShape_fields hpt
    exact h j c' hc' (by rw [← hid]; exact hcid)

/-- `ChainWF` only depends on the structural projection. -/
theorem chainWF_of_shapes {cust cust2 : Customer}
    (hsh : shapes cust2 = shapes cust) (h : ChainWF cust) : ChainWF cust2 := by
  intro i c s hc hs
  have hpt := shapes_getElem? hsh i
  rw [hc] at hpt
  cases hc' : cust.commitments[i]? with
  | none => rw [hc'] at hpt; cases hpt
  | some c' =>
    rw [hc'] at hpt
    simp only [Option.map_some', Option.some.injEq] at hpt
    obtain ⟨-, hst, -⟩ := cShape_fields hpt
    obtain ⟨j, c2, hij, hj, hid⟩ := h i c' s hc' (by rw [← hst]; exact hs)
    have hpt2 := shapes_getElem? hsh j
    rw [hj] at hpt2
    cases hc2' : cust2.commitments[j]? with
    | none => rw [hc2'] at hpt2; cases hpt2
    | some c2' =>
      rw [hc2'] at hpt2
      simp only [Option.map_some', Option.some.injEq] at hpt2
      obtain ⟨hid2, -, -⟩ := cShape_fields hpt2
      exact ⟨j, c2', hij, hc2', by rw [hid2]; exact hid⟩

/-- `NodupIds` only depends on the structural projection. -/
theorem nodupIds_of_shapes {cust cust2 : Customer}
    (hsh : shapes cust2 = shapes cust) (h : NodupIds cust) : NodupIds cust2 := by
  unfold NodupIds
  rw [commitmentIds_eq_map_shapes, hsh, ← commitmentIds_eq_map_shapes]
  exact h

/-- With distinct ids, two positions holding the same id coincide. -/
theorem NodupIds_idx_inj {cust : Customer} (hnd : NodupIds cust) {j1 j2 : Nat}
    {d1 d2 : Commitment} (h1 : cust.commitments[j1]? = some d1)
    (h2 : cust.commitments[j2]? = some d2)
    (hid : d1.commitment_id = d2.commitment_id) : j1 = j2 := by
  have hl1 : j1 < cust.commitments.length := (List.getElem?_eq_some.mp h1).1
  have h0 : j1 < (commitmentIds cust).length := by
    unfold commitmentIds
    rw [List.length_map]
    exact hl1
  have hmap : (commitmentIds cust)[j1]? = (commitmentIds cust)[j2]? := by
    unfold commitmentIds
    rw [List.getElem?_map, List.getElem?_map, h1, h2]
    simp [hid]
  exact List.getElem?_inj h0 hnd hmap

/-- The error produced by a failed commitment-level `remove_purchase`. -/
theorem Commitment.remove_purchase_error {c : Commitment} {pid : Nat} {e : String}
    (h : c.remove_purchase pid = Except.error e) :
    e = "A megadott vásárlási azonosító nem szerepel a kommitmentben" ∧
      findPurchase c.purchase_log pid = none := by
  unfold Commitment.remove_purchase at h
  cases hf : findPurchase c.purchase_log pid with
  | some q => rw [hf] at h; cases h
  | none =>
    rw [hf] at h
    simp only [Except.error.injEq] at h
    exact ⟨h.symm, rfl⟩

/-- One-step unfolding of the fuelled recursion, in terms of
`attemptRemove`. -/
theorem remove_purchase_go_succ (fuel : Nat) (cust : Customer) (cid pid : Nat) :
    Customer.remove_purchase_go (fuel + 1) cust cid pid =
      match cust.get_commitment cid with
      | none => Except.error "A megadott commitment ID nem található a vásárló alatt."
      | some c =>
        match c.status with
        | CommitmentStatus.Valid =>
          match c.remove_purchase pid with
          | Except.ok c2 =>
            Except.ok
              { cust with
                commitments := updateFirstCommitment cust.commitments cid c2 }
          | Except.error e => Except.error e
        | CommitmentStatus.Withdrawn successor =>
          Customer.remove_purchase_go fuel (attemptRemove cust cid pid) successor pid := by
  cases hg : cust.get_commitment cid with
  | none => simp only [Customer.remove_purchase_go, hg]
  | some c =>
    cases hst : c.status with
    | Valid => simp only [Customer.remove_purchase_go, hg, hst]
    | Withdrawn s =>
      simp only [Customer.remove_purchase_go, hg, hst]
      congr 1
      unfold attemptRemove
      simp only [hg]

/-- With a forward-only chain and distinct ids, fuel
`commitments.length` never runs out: the sentinel error (which stands for
the chain cycling, impossible in reachable states) is never returned. -/
theorem remove_purchase_go_no_fuel_error :
    ∀ (fuel : Nat), ∀ {cust : Customer} {cid pid k : Nat},
      ChainWF cust → NodupIds cust → IdxLB cust cid k →
      cust.commitments.length ≤ fuel + k → 1 ≤ fuel →
      Customer.remove_purchase_go fuel cust cid pid ≠
        Except.error "unreachable: withdrawal chain exceeded the commitment count" := by
  intro fuel
  induction fuel with
  | zero => intro cust cid pid k _ _ _ _ hpos; omega
  | succ fuel ih =>
    intro cust cid pid k hch hnd hlb hlen hpos
    rw [remove_purchase_go_succ]
    cases hg : cust.get_commitment cid with
    | none =>
      simp only [hg]
      intro hcontra
      simp only [Except.error.injEq] at hcontra
      exact absurd hcontra (by decide)
    | some c =>
      simp only [hg]
      cases hst : c.status with
      | Valid =>
        simp only [hst]
        cases hr : c.remove_purchase pid with
        | ok c2 => simp only [hr]; intro hcontra; cases hcontra
        | error e =>
          simp only [hr]
          obtain ⟨he, -⟩ := Commitment.remove_purchase_error hr
          subst he
          intro hcontra
          simp only [Except.error.injEq] at hcontra
          exact absurd hcontra (by decide)
      | Withdrawn s =>
        simp only [hst]
        obtain ⟨hmem, hcid⟩ := Customer.get_commitment_some hg
        obtain ⟨i, hi⟩ := List.mem_iff_getElem?.mp hmem
        have hki : k ≤ i := hlb i c hi hcid
        obtain ⟨j, c2, hij, hj, hjid⟩ := hch i c s hi hst
        have hjlen : j < cust.commitments.length := (List.getElem?_eq_some.mp hj).1
        have hsh : shapes (attemptRemove cust cid pid) = shapes cust :=
          attemptRemove_shapes cust cid pid
        have hlen2 : (attemptRemove cust cid pid).commitments.length =
            cust.commitments.length := shapes_length hsh
        have hlb2 : IdxLB (attemptRemove cust cid pid) s (i + 1) := by
          apply IdxLB_of_shapes hsh
          intro j' c' hj' hcid'
          have hjj : j' = j := NodupIds_idx_inj hnd hj' hj (by rw [hcid', hjid])
          omega
        exact ih (chainWF_of_shapes hsh hch) (nodupIds_of_shapes hsh hnd) hlb2
          (by rw [hlen2]; omega) (by omega)

/-- Above the chain-depth threshold the fuel value is irrelevant. -/
theorem remove_purchase_go_fuel_succ :
    ∀ (fuel : Nat), ∀ {cust : Customer} {cid pid k : Nat},
      ChainWF cust → NodupIds cust → IdxLB cust cid k →
      cust.commitments.length ≤ fuel + k → 1 ≤ fuel →
      Customer.remove_purchase_go (fuel + 1) cust cid pid =
        Customer.remove_purchase_go fuel cust cid pid := by
  intro fuel
  induction fuel with
  | zero => intro cust cid pid k _ _ _ _ hpos; omega
  | succ fuel ih =>
    intro cust cid pid k hch hnd hlb hlen hpos
    rw [remove_purchase_go_succ, remove_purchase_go_succ]
    cases hg : cust.get_commitment cid with
    | none => simp only [hg]
    | some c =>
      simp only [hg]
      cases hst : c.status with
      | Valid => simp only [hst]
      | Withdrawn s =>
        simp only [hst]
        obtain ⟨hmem, hcid⟩ := Customer.get_commitment_some hg
        obtain ⟨i, hi⟩ := List.mem_iff_getElem?.mp hmem
        have hki : k ≤ i := hlb i c hi hcid
        obtain ⟨j, c2, hij, hj, hjid⟩ := hch i c s hi hst
        have hjlen : j < cust.commitments.length := (List.getElem?_eq_some.mp hj).1
        have hsh : shapes (attemptRemove cust cid pid) = shapes cust :=
          attemptRemove_shapes cust cid pid
        have hlen2 : (attemptRemove cust cid pid).commitments.length =
            cust.commitments.length := shapes_length hsh
        have hlb2 : IdxLB (attemptRemove cust cid pid) s (i + 1) := by
          apply IdxLB_of_shapes hsh
          intro j' c' hj' hcid'
          have hjj : j' = j := NodupIds_idx_inj hnd hj' hj (by rw [hcid', hjid])
          omega
        exact ih (chainWF_of_shapes hsh hch) (nodupIds_of_shapes hsh hnd) hlb2
          (by rw [hlen2]; omega) (by omega)

/-- C5: for a reachable customer, `Customer::remove_purchase` on a
commitment found by id behaves as the spec describes: on a `Valid`
commitment it performs the single removal, propagating its not-found
error (terminal case); on a `Withdrawn{successor}` commitment it attempts
the removal, discards the outcome, and continues with the successor id;
and the recursion always reaches its terminal case — the fuel sentinel of
the embedding (standing for a cyclic chain) is never returned. -/
theorem claim_C5_remove_chain {cust : Customer} {t : Nat} (h : Reaches cust t)
    (cid pid : Nat) {c : Commitment}
    (hg : cust.get_commitment cid = some c) :
    (∀ e : String, c.status = CommitmentStatus.Valid →
        c.remove_purchase pid = Except.error e →
        Customer.remove_purchase cust cid pid = Except.error e) ∧
    (∀ c2 : Commitment, c.status = CommitmentStatus.Valid →
        c.remove_purchase pid = Except.ok c2 →
        Customer.remove_purchase cust cid pid =
          Except.ok
            { cust with
              commitments := updateFirstCommitment cust.commitments cid c2 }) ∧
    (∀ s : Nat, c.status = CommitmentStatus.Withdrawn s →
        Customer.remove_purchase cust cid pid =
          Customer.remove_purchase (attemptRemove cust cid pid) s pid) ∧
    Customer.remove_purchase cust cid pid ≠
      Except.error "unreachable: withdrawal chain exceeded the commitment count" := by
  obtain ⟨hne, hnd, hch, -⟩ := h.structWF
  have hlenpos : 0 < cust.commitments.length := by
    obtain ⟨hmem, -⟩ := Customer.get_commitment_some hg
    cases hl : cust.commitments with
    | nil => rw [hl] at hmem; cases hmem
    | cons x xs => simp
  have hunfold : Customer.remove_purchase cust cid pid =
      Customer.remove_purchase_go ((cust.commitments.length - 1) + 1) cust cid pid := by
    unfold Customer.remove_purchase
    congr 1
    omega
  refine ⟨?_, ?_, ?_, ?_⟩
  · intro e hst hr
    rw [hunfold, remove_purchase_go_succ]
    simp only [hg, hst, hr]
  · intro c2 hst hr
    rw [hunfold, remove_purchase_go_succ]
    simp only [hg, hst, hr]
  · intro s hst
    rw [hunfold, remove_purchase_go_succ]
    simp only [hg, hst]
    obtain ⟨hmem, hcid⟩ := Customer.get_commitment_some hg
    obtain ⟨i, hi⟩ := List.mem_iff_getElem?.mp hmem
    obtain ⟨j, c2, hij, hj, hjid⟩ := hch i c s hi hst
    have hjlen : j < cust.commitments.length := (List.getElem?_eq_some.mp hj).1
    have hsh := attemptRemove_shapes cust cid pid
    have hlen2 : (attemptRemove cust cid pid).commitments.length =
        cust.commitments.length := shapes_length hsh
    have hlb2 : IdxLB (attemptRemove cust cid pid) s (i + 1) := by
      apply IdxLB_of_shapes hsh
      intro j' c' hj' hcid'
      have hjj : j' = j := NodupIds_idx_inj hnd hj' hj (by rw [hcid', hjid])
      omega
    have hfi := @remove_purchase_go_fuel_succ (cust.commitments.length - 1)
      (attemptRemove cust cid pid) s pid (i + 1)
      (chainWF_of_shapes hsh hch) (nodupIds_of_shapes hsh hnd) hlb2
      (by rw [hlen2]; omega) (by omega)
    rw [← hfi]
    unfold Customer.remove_purchase
    congr 1
    rw [hlen2]
    omega
  · intro hcontra
    unfold Customer.remove_purchase at hcontra
    exact @remove_purchase_go_no_fuel_error cust.commitments.length cust cid pid 0
      hch hnd (fun j c _ _ => Nat.zero_le j) (by omega) hlenpos hcontra

/-- C5 witness: on `traceCust4`, removal through the `Valid` head with an
unknown purchase id propagates the not-found error, while removal named
at the withdrawn commitment 10 equals the recursion into its successor 11
after the discarded attempt. -/
theorem claim_C5_remove_chain_witness :
    Customer.remove_purchase traceCust4 11 99 =
      Except.error "A megadott vásárlási azonosító nem szerepel a kommitmentben" ∧
    Customer.remove_purchase traceCust4 10 7 =
      Customer.remove_purchase (attemptRemove traceCust4 10 7) 11 7 :=
  ⟨(@claim_C5_remove_chain traceCust4 0 traceCust4_reachable 11 99 traceCommitB
      (by decide)).1
      "A megadott vásárlási azonosító nem szerepel a kommitmentben"
      (by decide) (by decide),
   (@claim_C5_remove_chain traceCust4 0 traceCust4_reachable 10 7
      { traceCommit0 with
          balance := 0
          purchase_log := [tracePurchase.set_removed]
          status := CommitmentStatus.Withdrawn 11 }
      (by decide)).2.2.1 11 (by decide)⟩

/-- The balance of every commitment tracks its ledger, modulo the `u32`
width. -/
def BalInv (cust : Customer) : Prop :=
  ∀ (i : Nat) (c : Commitment), cust.commitments[i]? = some c →
    c.balance = grossSum c.purchase_log % 4294967296

/-- `grossSum` distributes over append. -/
theorem grossSum_append (l1 l2 : List PurchaseInfo) :
    grossSum (l1 ++ l2) = grossSum l1 + grossSum l2 := by
  induction l1 with
  | nil => simp [grossSum]
  | cons p rest ih =>
    simp only [List.cons_append, grossSum, List.append_eq]
    rw [ih]
    omega

/-- Soft-deleting the first match of a non-removed entry takes exactly its
gross amount out of the non-removed sum. -/
theorem grossSum_markFirstRemoved {l : List PurchaseInfo} {pid : Nat}
    {q : PurchaseInfo} (hf : findPurchase l pid = some q) (hqr : q.removed = false) :
    grossSum l = grossSum (markFirstRemoved l pid) + q.total_gross := by
  induction l with
  | nil => cases hf
  | cons p rest ih =>
    by_cases hp : ((fun x : PurchaseInfo => x.purchase_id == pid) p) = true
    · have h1 : findPurchase (p :: rest) pid = some p := by
        unfold findPurchase
        exact List.find?_cons_of_pos rest hp
      rw [h1] at hf
      simp only [Option.some.injEq] at hf
      subst hf
      have hm : markFirstRemoved (p :: rest) pid = p.set_removed :: rest := by
        simp only [markFirstRemoved]
        rw [if_pos hp]
      rw [hm]
      simp only [grossSum, PurchaseInfo.set_removed, hqr]
      simp
      omega
    · have h2 : findPurchase rest pid = some q := by
        unfold findPurchase at hf ⊢
        rwa [List.find?_cons_of_neg rest hp] at hf
      have hm : markFirstRemoved (p :: rest) pid = p :: markFirstRemoved rest pid := by
        simp only [markFirstRemoved]
        rw [if_neg hp]
      rw [hm]
      simp only [grossSum]
      rw [ih h2]
      omega

/-- Wrapping addition against a reduced accumulator. -/
theorem u32add_mod (S g : Nat) : u32add (S % 4294967296) g = (S + g) % 4294967296 := by
  unfold u32add
  omega

/-- Wrapping subtraction of a summand against a reduced accumulator. -/
theorem u32sub_mod (T g : Nat) :
    u32sub ((T + g) % 4294967296) g = T % 4294967296 := by
  unfold u32sub
  omega

/-- Each position of `updateFirstCommitment l cid c2` holds either the
original element or `c2` in place of an original element with id `cid`. -/
theorem updateFirst_getElem?_cases :
    ∀ (l : List Commitment) (cid : Nat) (c2 : Commitment) (j : Nat) (c' : Commitment),
      (updateFirstCommitment l cid c2)[j]? = some c' →
      l[j]? = some c' ∨ (c' = c2 ∧ ∃ d, l[j]? = some d ∧ d.commitment_id = cid) := by
  intro l
  induction l with
  | nil => intro cid c2 j c' h; simp [updateFirstCommitment] at h
  | cons a rest ih =>
    intro cid c2 j c' h
    by_cases ha : (a.commitment_id == cid) = true
    · have hm : updateFirstCommitment (a :: rest) cid c2 = c2 :: rest := by
        simp only [updateFirstCommitment]
        rw [if_pos ha]
      rw [hm] at h
      cases j with
      | zero =>
        simp only [List.getElem?_cons_zero, Option.some.injEq] at h
        exact Or.inr ⟨h.symm, a, by simp, by simpa using ha⟩
      | succ m => exact Or.inl (by simpa using h)
    · have hm : updateFirstCommitment (a :: rest) cid c2 =
          a :: updateFirstCommitment rest cid c2 := by
        simp only [updateFirstCommitment]
        rw [if_neg ha]
      rw [hm] at h
      cases j with
      | zero => exact Or.inl (by simpa using h)
      | succ m =>
        simp only [List.getElem?_cons_succ] at h ⊢
        exact ih cid c2 m c' h

/-- One successful ledger removal keeps the balance invariant of the
touched commitment, provided the removed entry was not already flagged. -/
theorem balInv_remove_link {c c2 : Commitment} {pid : Nat}
    (hr : c.remove_purchase pid = Except.ok c2)
    (hinv : c.balance = grossSum c.purchase_log % 4294967296)
    (hgood : ∀ q, findPurchase c.purchase_log pid = some q → q.removed = false) :
    c2.balance = grossSum c2.purchase_log % 4294967296 := by
  obtain ⟨q, hq, -, hlog, hbal⟩ := Commitment.remove_purchase_ok hr
  have hqr := hgood q hq
  have hsum := grossSum_markFirstRemoved hq hqr
  rw [hbal, hlog, hinv, hsum]
  exact u32sub_mod _ _

/-- Each position of `l.set n x` holds the original element or `x` at
position `n`. -/
theorem set_getElem?_cases {α : Type} (l : List α) (n : Nat) (x : α) (j : Nat)
    (y : α) (h : (l.set n x)[j]? = some y) :
    l[j]? = some y ∨ (y = x ∧ j = n) := by
  by_cases hje : j = n
  · subst hje
    have hlt : j < l.length := by
      have := (List.getElem?_eq_some.mp h).1
      simpa using this
    rw [List.getElem?_set_self hlt] at h
    simp only [Option.some.injEq] at h
    exact Or.inr ⟨h.symm, rfl⟩
  · rw [List.getElem?_set_ne (Ne.symm hje)] at h
    exact Or.inl h

/-- `Customer::new` establishes the balance invariant. -/
theorem balInv_new {now customer_id target dp cb fid : Nat} {cust : Customer}
    (h : Customer.new now customer_id target dp cb fid = Except.ok cust) :
    BalInv cust := by
  obtain ⟨-, hc⟩ := Customer.new_result h
  subst hc
  intro i c hi
  cases i with
  | zero =>
    simp only [List.getElem?_cons_zero, Option.some.injEq] at hi
    rw [← hi]
    simp [grossSum]
  | succ m => simp at hi

/-- `Customer::add_purchase` preserves the balance invariant for entries
created with `removed = false` (as `PurchaseInfo::new` does). -/
theorem balInv_add_purchase {cust : Customer} {now cid : Nat} {p : PurchaseInfo}
    {cust2 : Customer} (hbal : BalInv cust) (hp : p.removed = false)
    (h : Customer.add_purchase cust now cid p = Except.ok cust2) : BalInv cust2 := by
  unfold Customer.add_purchase at h
  by_cases hh : cust.has_commitment cid
  · rw [if_neg (by simpa using hh)] at h
    cases hga : cust.get_active_commitment now with
    | none => simp only [hga] at h; cases h
    | some a =>
      simp only [hga] at h
      by_cases hid : a.commitment_id = cid
      · simp only [hid, if_true] at h
        cases hadd : a.add_purchase p with
        | ok c2 =>
          simp only [hadd, Except.ok.injEq] at h
          subst h
          obtain ⟨-, hbal2, hlog2, -⟩ := Commitment.add_purchase_ok hadd
          have hgl := (Customer.get_active_some hga).1
          have hgetA : cust.commitments[cust.commitments.length - 1]? = some a :=
            getLast?_getElem? hgl
          have hainv := hbal _ a hgetA
          intro j c' hj
          rcases set_getElem?_cases cust.commitments (cust.commitments.length - 1)
              c2 j c' hj with h1 | ⟨hy, -⟩
          · exact hbal j c' h1
          · subst hy
            rw [hbal2, hlog2, hainv, grossSum_append]
            simp only [grossSum, hp, if_false]
            rw [u32add_mod]
            simp
        | error e =>
          simp only [hadd, Except.ok.injEq] at h
          subst h
          exact hbal
      · simp only [hid, if_false] at h; cases h
  · rw [if_pos (by simpa using hh)] at h; cases h

/-- `Customer::add_commitment` preserves the balance invariant: the
withdrawn commitment keeps its balance and ledger, and the appended
successor copies both from it. -/
theorem balInv_add_commitment {cust : Customer} {now nt nd cb fid : Nat}
    {cust2 : Customer} (hbal : BalInv cust)
    (h : Customer.add_commitment cust now nt nd cb fid = Except.ok cust2) :
    BalInv cust2 := by
  cases hga : cust.get_active_commitment now with
  | none =>
    obtain ⟨-, hc2⟩ := Customer.add_commitment_ok_none hga h
    subst hc2
    intro j c' hj
    by_cases hjl : j < cust.commitments.length
    · rw [List.getElem?_append_left hjl] at hj
      exact hbal j c' hj
    · push_neg at hjl
      rw [List.getElem?_append_right hjl] at hj
      cases hii : j - cust.commitments.length with
      | zero =>
        rw [hii] at hj
        simp only [List.getElem?_cons_zero, Option.some.injEq] at hj
        rw [← hj]
        simp [grossSum]
      | succ m => rw [hii] at hj; simp at hj
  | some a =>
    obtain ⟨-, hc2⟩ := Customer.add_commitment_ok_active hga h
    subst hc2
    have hgl := (Customer.get_active_some hga).1
    have hgetA : cust.commitments[cust.commitments.length - 1]? = some a :=
      getLast?_getElem? hgl
    have hainv := hbal _ a hgetA
    intro j c' hj
    have hsetlen : (cust.commitments.set (cust.commitments.length - 1)
        { a with status := CommitmentStatus.Withdrawn fid }).length =
        cust.commitments.length := by simp
    by_cases hjl : j < cust.commitments.length
    · rw [List.getElem?_append_left (by rw [hsetlen]; exact hjl)] at hj
      rcases set_getElem?_cases cust.commitments (cust.commitments.length - 1)
          { a with status := CommitmentStatus.Withdrawn fid } j c' hj with h1 | ⟨hy, -⟩
      · exact hbal j c' h1
      · subst hy
        exact hainv
    · push_neg at hjl
      rw [List.getElem?_append_right (by rw [hsetlen]; exact hjl), hsetlen] at hj
      cases hii : j - cust.commitments.length with
      | zero =>
        rw [hii] at hj
        simp only [List.getElem?_cons_zero, Option.some.injEq] at hj
        rw [← hj]
        exact hainv
      | succ m => rw [hii] at hj; simp at hj

/-- The recursive removal preserves the balance invariant as long as no
link re-removes an already flagged entry. -/
theorem remove_purchase_go_balInv :
    ∀ (fuel : Nat), ∀ {cust : Customer} {cid pid k : Nat} {cust2 : Customer},
      BalInv cust → ChainWF cust → NodupIds cust → IdxLB cust cid k →
      (∀ (j : Nat) (c : Commitment), cust.commitments[j]? = some c → k ≤ j →
        ∀ q, findPurchase c.purchase_log pid = some q → q.removed = false) →
      Customer.remove_purchase_go fuel cust cid pid = Except.ok cust2 →
      BalInv cust2 := by
  intro fuel
  induction fuel with
  | zero => intro cust cid pid k cust2 _ _ _ _ _ h; cases h
  | succ fuel ih =>
    intro cust cid pid k cust2 hbal hch hnd hlb hafter h
    rw [remove_purchase_go_succ] at h
    cases hg : cust.get_commitment cid with
    | none => simp only [hg] at h; cases h
    | some c =>
      simp only [hg] at h
      obtain ⟨hmem, hcid⟩ := Customer.get_commitment_some hg
      obtain ⟨i, hi⟩ := List.mem_iff_getElem?.mp hmem
      have hki : k ≤ i := hlb i c hi hcid
      cases hst : c.status with
      | Valid =>
        simp only [hst] at h
        cases hr : c.remove_purchase pid with
        | ok c2' =>
          simp only [hr, Except.ok.injEq] at h
          subst h
          intro j c' hj
          rcases updateFirst_getElem?_cases cust.commitments cid c2' j c' hj with
            h1 | ⟨hy, d, hd, hdid⟩
          · exact hbal j c' h1
          · subst hy
            exact balInv_remove_link hr (hbal i c hi) (hafter i c hi hki)
        | error e => simp only [hr] at h; cases h
      | Withdrawn s =>
        simp only [hst] at h
        have hattinv : BalInv (attemptRemove cust cid pid) := by
          unfold attemptRemove
          simp only [hg]
          cases hr : c.remove_purchase pid with
          | ok c2' =>
            intro j c' hj
            rcases updateFirst_getElem?_cases cust.commitments cid c2' j c' hj with
              h1 | ⟨hy, d, hd, hdid⟩
            · exact hbal j c' h1
            · subst hy
              exact balInv_remove_link hr (hbal i c hi) (hafter i c hi hki)
          | error e => exact hbal
        have hsh := attemptRemove_shapes cust cid pid
        obtain ⟨j0, cs, hij0, hj0, hjid0⟩ := hch i c s hi hst
        have hlb2 : IdxLB (attemptRemove cust cid pid) s (i + 1) := by
          apply IdxLB_of_shapes hsh
          intro j' c' hj' hcid'
          have hjj : j' = j0 := NodupIds_idx_inj hnd hj' hj0 (by rw [hcid', hjid0])
          omega
        have hafter2 : ∀ (j : Nat) (c' : Commitment),
            (attemptRemove cust cid pid).commitments[j]? = some c' → i + 1 ≤ j →
            ∀ q, findPurchase c'.purchase_log pid = some q → q.removed = false := by
          intro j c' hj hjge q hq
          revert hj
          unfold attemptRemove
          simp only [hg]
          cases hr : c.remove_purchase pid with
          | ok c2' =>
            intro hj
            rcases updateFirst_getElem?_cases cust.commitments cid c2' j c' hj with
              h1 | ⟨hy, d, hd, hdid⟩
            · exact hafter j c' h1 (by omega) q hq
            · have hji : j = i := NodupIds_idx_inj hnd hd hi (by rw [hdid, hcid])
              omega
          | error e =>
            intro hj
            exact hafter j c' hj (by omega) q hq
        exact ih hattinv (chainWF_of_shapes hsh hch) (nodupIds_of_shapes hsh hnd)
          hlb2 hafter2 h

/-- Reachability restricted to traces that never ask a removal while some
commitment's first ledger match for the purchase id is already flagged
removed — i.e. no purchase is ever removed twice.  All other steps are
exactly those of `Reaches`. -/
inductive ReachesND : Customer → Nat → Prop where
  | init (now customer_id target discount_percentage created_by freshId : Nat)
      (cust : Customer) :
      Customer.new now customer_id target discount_percentage created_by freshId =
        Except.ok cust →
      ReachesND cust now
  | addCommitment {cust : Customer} {t : Nat}
      (now new_target new_discount_percentage created_by freshId : Nat)
      {cust2 : Customer} :
      ReachesND cust t → t ≤ now →
      freshId ∉ commitmentIds cust →
      Customer.add_commitment cust now new_target new_discount_percentage created_by
        freshId = Except.ok cust2 →
      ReachesND cust2 now
  | addPurchase {cust : Customer} {t : Nat}
      (now commitment_id purchase_id total_net total_gross applied_discount : Nat)
      {cust2 : Customer} :
      ReachesND cust t → t ≤ now →
      total_gross < 4294967296 →
      Customer.add_purchase cust now commitment_id
        (PurchaseInfo.new purchase_id total_net total_gross applied_discount now) =
        Except.ok cust2 →
      ReachesND cust2 now
  | removePurchase {cust : Customer} {t : Nat}
      (now commitment_id purchase_id : Nat) {cust2 : Customer} :
      ReachesND cust t → t ≤ now →
      (∀ c ∈ cust.commitments, ∀ q,
        findPurchase c.purchase_log purchase_id = some q → q.removed = false) →
      Customer.remove_purchase cust commitment_id purchase_id = Except.ok cust2 →
      ReachesND cust2 now

/-- Every no-double-removal trace is an ordinary trace. -/
theorem ReachesND.toReaches {cust : Customer} {t : Nat} (h : ReachesND cust t) :
    Reaches cust t := by
  induction h with
  | init now customer_id target dp cb fid cust h => exact Reaches.init _ _ _ _ _ _ _ h
  | addCommitment now nt nd cb fid hr hle hfresh h ih =>
    exact Reaches.addCommitment _ _ _ _ _ ih hle hfresh h
  | addPurchase now cid pid tn tg ad hr hle hg h ih =>
    exact Reaches.addPurchase _ _ _ _ _ _ ih hle hg h
  | removePurchase now cid pid hr hle hgood h ih =>
    exact Reaches.removePurchase _ _ _ ih hle h

/-- The balance invariant holds on every no-double-removal trace. -/
theorem ReachesND.balInv {cust : Customer} {t : Nat} (h : ReachesND cust t) :
    BalInv cust := by
  induction h with
  | init now customer_id target dp cb fid cust h => exact balInv_new h
  | addCommitment now nt nd cb fid hr hle hfresh h ih =>
    exact balInv_add_commitment ih h
  | addPurchase now cid pid tn tg ad hr hle hg h ih =>
    exact balInv_add_purchase ih rfl h
  | removePurchase now cid pid hr hle hgood h ih =>
    rename_i cust1 t1 cust21
    obtain ⟨-, hnd, hch, -⟩ := hr.toReaches.structWF
    unfold Customer.remove_purchase at h
    exact remove_purchase_go_balInv cust1.commitments.length ih hch hnd
      (fun j c _ _ => Nat.zero_le j)
      (fun j c hj _ q hq => hgood c (List.getElem?_mem hj) q hq) h

/-- C2 counterexample: the state after creating a customer, posting a
purchase of gross 5 and retracting it twice is reachable through the
public interface, yet its commitment's balance (`2^32 - 5`, after the
wrapping double subtraction) differs from the sum of gross amounts over
non-removed entries (0). -/
theorem claim_C2_counterexample :
    Reaches traceCust3 0 ∧
    ¬ (∀ c ∈ traceCust3.commitments, c.balance = grossSum c.purchase_log) :=
  ⟨traceCust3_reachable, by decide⟩

/-- C2 (amended): on every state reachable from `Customer::new` through
the public operations in which `Customer::remove_purchase` is never
invoked while some commitment's first ledger entry matching the purchase
id is already flagged removed (no double removal), every commitment's
balance equals the sum of `total_gross` over its non-removed ledger
entries reduced modulo `2^32` — and equals the plain sum whenever that
sum fits in a `u32`.  Without the no-double-removal proviso the code
violates the invariant, as the counterexample shows. -/
theorem claim_C2_balance_invariant {cust : Customer} {t : Nat}
    (h : ReachesND cust t) :
    ∀ c ∈ cust.commitments,
      c.balance = grossSum c.purchase_log % 4294967296 ∧
      (grossSum c.purchase_log < 4294967296 →
        c.balance = grossSum c.purchase_log) := by
  intro c hc
  obtain ⟨i, hi⟩ := List.mem_iff_getElem?.mp hc
  have hmain := h.balInv i c hi
  exact ⟨hmain, fun hlt => by rw [hmain, Nat.mod_eq_of_lt hlt]⟩

/-- C2 witness: the single-removal trace state `traceCust2` satisfies the
invariant — its commitment's balance 0 equals the non-removed gross sum. -/
theorem claim_C2_balance_invariant_witness :
    (0 : Nat) = grossSum [tracePurchase.set_removed] % 4294967296 ∧
    (grossSum [tracePurchase.set_removed] < 4294967296 →
      (0 : Nat) = grossSum [tracePurchase.set_removed]) := by
  have hnd : ReachesND traceCust2 0 := by
    have h0 : ReachesND traceCust0 0 :=
      ReachesND.init 0 77 1000 2 1 10 traceCust0 (by decide)
    have h1 : ReachesND traceCust1 0 :=
      ReachesND.addPurchase 0 10 7 100 5 2 h0 (Nat.le_refl 0) (by decide) (by decide)
    exact ReachesND.removePurchase 0 10 7 h1 (Nat.le_refl 0) (by decide) (by decide)
  exact claim_C2_balance_invariant hnd
    { traceCommit0 with balance := 0, purchase_log := [tracePurchase.set_removed] }
    (by decide)
